import Mathlib

/-!
Verification development for the ooxmlsdk repository: a shallow embedding of
the schema-compiler runtime support code (includes/common.rs, the hand-written
OPC content-types part) and of the behavioral contracts produced by the code
generators (validator.rs, deserializer.rs, serializer.rs, open_xml_part.rs),
together with theorems settling the specification claims about them.

Machine strings are modelled as Lean `String`/`List Char`; Rust byte slices
compare by equality exactly as the corresponding strings do on the ASCII data
involved.  Fallible Rust code returning `Result<_, SdkError>` is modelled with
`Except SdkError`.  Functions that the Rust side implements with unbounded
loops are written with an explicit fuel argument (fuel is always instantiated
with the input length, which the step-counting lemmas show is sufficient), so
that every definition reduces by evaluation.
-/

namespace Ooxmlsdk

/-- Model of the SdkError enum of includes/common.rs, restricted to the
variants the verified code paths can produce.  `mismatch` carries the
formatted `expected`/`found` strings; `common` models `CommonError`;
`parseIntError` models `ParseIntError` (carrying the offending text);
`unknown` models `UnknownError`. -/
inductive SdkError where
  | mismatch (expected found : String)
  | common (s : String)
  | parseIntError (s : String)
  | unknown
deriving Repr, DecidableEq

/-- Model of quick_xml BytesStart: the raw tag name plus the raw (still
escaped) attribute key/value pairs in document order. -/
structure StartTag where
  name : String
  attrs : List (String × String)
deriving Repr, DecidableEq

/-- Model of the quick_xml event stream consumed through the XmlReader trait
of includes/common.rs.  End-of-input (Event::Eof) is modelled by the event
list running out. -/
inductive XmlEvent where
  | start (t : StartTag)
  | empty (t : StartTag)
  | endTag (name : String)
  | text (s : String)
  | decl
deriving Repr, DecidableEq

/-! ## XML escaping (quick_xml::escape), modelled for the collaborator
interface: `escape` replaces the five special characters by named entities,
`unescape` decodes named entities and fails on malformed ones. -/

/-- The apostrophe character (written via its code point). -/
def aposChar : Char := Char.ofNat 39

/-- Entity expansion of one character, as performed by quick_xml escape. -/
def escapeChar (c : Char) : List Char :=
  if c = '<' then '&' :: 'l' :: 't' :: [';']
  else if c = '>' then '&' :: 'g' :: 't' :: [';']
  else if c = '&' then '&' :: 'a' :: 'm' :: 'p' :: [';']
  else if c = '"' then '&' :: 'q' :: 'u' :: 'o' :: 't' :: [';']
  else if c = aposChar then '&' :: 'a' :: 'p' :: 'o' :: 's' :: [';']
  else [c]

/-- Escape a character list (quick_xml::escape::escape on the underlying
bytes). -/
def escapeList (cs : List Char) : List Char :=
  match cs with
  | [] => []
  | c :: rest => escapeChar c ++ escapeList rest

/-- Escape a string. -/
def escape (s : String) : String := String.mk (escapeList s.data)

/-- Decode one named entity body ("lt", "gt", "amp", "quot", "apos"). -/
def decodeEntity (cs : List Char) : Option Char :=
  if cs = ['l', 't'] then some '<'
  else if cs = ['g', 't'] then some '>'
  else if cs = ['a', 'm', 'p'] then some '&'
  else if cs = ['q', 'u', 'o', 't'] then some '"'
  else if cs = ['a', 'p', 'o', 's'] then some aposChar
  else none

/-- Unescape with explicit fuel (one unit per decoded output character).
Models quick_xml unescape as used by decode_and_unescape_value: a bare
sequence up to the next `&` is copied, an `&...;` entity is decoded (the
characters up to the first semicolon form the entity body, and input ending
inside an entity is malformed), a malformed or unknown entity is an
error. -/
def unescapeFuel : Nat → List Char → Except SdkError (List Char)
  | _, [] => .ok []
  | 0, _ :: _ => .error .unknown
  | fuel + 1, c :: rest =>
    if c = '&' then
      let ent := rest.takeWhile (fun d => d ≠ ';')
      if (rest.drop ent.length).isEmpty then .error (.common (String.mk ent))
      else
        match decodeEntity ent with
        | some d =>
          match unescapeFuel fuel (rest.drop (ent.length + 1)) with
          | .ok tail => .ok (d :: tail)
          | .error e => .error e
        | none => .error (.common (String.mk ent))
    else
      match unescapeFuel fuel rest with
      | .ok tail => .ok (c :: tail)
      | .error e => .error e

/-- Unescape a character list (fuel = length is always sufficient because
every step consumes at least one input character). -/
def unescapeList (cs : List Char) : Except SdkError (List Char) :=
  unescapeFuel cs.length cs

/-- Model of attr.decode_and_unescape_value: decode (identity on our model)
then unescape. -/
def unescapeStr (s : String) : Except SdkError String :=
  match unescapeList s.data with
  | .ok cs => .ok (String.mk cs)
  | .error e => .error e

/-- Model of slice::strip_prefix on character lists. -/
def stripPrefixChars : List Char → List Char → Option (List Char)
  | [], s => some s
  | _ :: _, [] => none
  | p :: ps, c :: cs => if c = p then stripPrefixChars ps cs else none

/-- Model of str::starts_with. -/
def startsWithStr (p s : String) : Bool := (stripPrefixChars p.data s.data).isSome

/-- Decimal digit accumulation (none on a non-digit character). -/
def digitsToNatAux : List Char → Nat → Option Nat
  | [], acc => some acc
  | c :: rest, acc =>
    if 48 ≤ c.toNat ∧ c.toNat ≤ 57 then digitsToNatAux rest (acc * 10 + (c.toNat - 48))
    else none

/-- Model of str::parse::<usize> on the digit strings the schema carries
(sign prefixes are not modelled; the schema arguments are plain digits). -/
def strToNat? (s : String) : Option Nat :=
  if s.data.isEmpty then none else digitsToNatAux s.data 0

/-- Model of str::parse::<i64>: an optional leading minus sign followed by
at least one digit. -/
def strToInt? (s : String) : Option Int :=
  match s.data with
  | '-' :: rest =>
    if rest.isEmpty then none
    else
      match digitsToNatAux rest 0 with
      | some n => some (-(n : Int))
      | none => none
  | _ =>
    if s.data.isEmpty then none
    else
      match digitsToNatAux s.data 0 with
      | some n => some ((n : Int))
      | none => none

/-! ## expect_event_start (includes/common.rs) -/

/-- The reading loop inside expect_event_start: skip events until the next
Start or Empty event (returning it together with the empty-tag flag), and
fail with UnknownError at end of input. -/
def readStartOrEmpty : List XmlEvent → Except SdkError ((StartTag × Bool) × List XmlEvent)
  | [] => .error .unknown
  | .start t :: rest => .ok ((t, false), rest)
  | .empty t :: rest => .ok ((t, true), rest)
  | .endTag _ :: rest => readStartOrEmpty rest
  | .text _ :: rest => readStartOrEmpty rest
  | .decl :: rest => readStartOrEmpty rest

/-- Model of expect_event_start: when a pre-read event is supplied it is
returned unchanged; otherwise the next Start/Empty event is read and its name
is compared against the prefixed and the bare tag, a mismatch producing
MismatchError with the formatted expected text and the found name. -/
def expectEventStart (events : List XmlEvent) (xmlEvent : Option (StartTag × Bool))
    (tagPrefixed tag : String) : Except SdkError ((StartTag × Bool) × List XmlEvent) :=
  match xmlEvent with
  | some eb => .ok (eb, events)
  | none =>
    match readStartOrEmpty events with
    | .error e => .error e
    | .ok ((t, emptyTag), rest) =>
      if t.name = tagPrefixed ∨ t.name = tag then
        .ok ((t, emptyTag), rest)
      else
        .error (.mismatch (tagPrefixed ++ " OR " ++ tag) t.name)

/-! ## resolve_zip_file_path (includes/common.rs) -/

/-- Splitting on the slash character, as Rust str::split yields it (empty
pieces are kept, the empty string splits to one empty piece). -/
def splitSlash : List Char → List (List Char)
  | [] => [[]]
  | c :: rest =>
    let r := splitSlash rest
    if c = '/' then [] :: r
    else (c :: r.headD []) :: r.tail

/-- One step of the component stack loop of resolve_zip_file_path: empty and
dot components are dropped, a dot-dot pops the stack, anything else is
pushed. -/
def resolveStep (stack : List String) (component : String) : List String :=
  if component = "" ∨ component = "." then stack
  else if component = ".." then stack.dropLast
  else stack ++ [component]

/-- Joining components back with slashes (stack.join("/")). -/
def joinSlash : List String → String
  | [] => ""
  | [x] => x
  | x :: y :: rest => x ++ "/" ++ joinSlash (y :: rest)

/-- Model of resolve_zip_file_path. -/
def resolveZipFilePath (path : String) : String :=
  joinSlash (List.foldl resolveStep [] ((splitSlash path.data).map String.mk))

/-- The child target-path computation of the generated new_from_archive
(open_xml_part.rs): the relationship target appended to the current part
directory, then normalized. -/
def childTargetPath (childParentPath target : String) : String :=
  resolveZipFilePath (childParentPath ++ target)

/-! ## Attribute validator generation (generator/validator.rs,
gen_attr_validator_stmt_list).

The generator walks an attribute's validator list and emits a statement list
over a `validator_results` boolean vector; we embed the emitted statements as
data (`VStmt`) and give them their runtime semantics (`execVStmts`), keeping
the generator's own control flow (`genValidatorLoop`) faithful to the
source. -/

/-- Model of OpenXmlSchemaTypeAttributeValidatorArgument (models.rs). -/
structure ValidatorArgument where
  name : String
  value : String
deriving Repr, DecidableEq

/-- Model of OpenXmlSchemaTypeAttributeValidator (models.rs), restricted to
the fields the validator generator reads. -/
structure AttrValidator where
  name : String
  arguments : List ValidatorArgument
deriving Repr, DecidableEq

/-- Model of OpenXmlSchemaTypeAttribute (models.rs), restricted to the
fields the validator generator reads. -/
structure SchemaAttr where
  qName : String
  propertyName : String
  type : String
  validators : List AttrValidator
deriving Repr, DecidableEq

/-- Gen-time argument parse, argument.value.parse::<usize>().unwrap(); the
schema data always parses (a non-numeric value panics in the source and
defaults here). -/
def parseNatArg (s : String) : Nat := (strToNat? s).getD 0

/-- Gen-time argument parse, argument.value.parse::<i64>().unwrap(). -/
def parseIntArg (s : String) : Int := (strToInt? s).getD 0

/-- Runtime value of an attribute field: string-backed kinds hold text,
numeric kinds hold an integer (machine-width side conditions do not matter
for the claims settled here). -/
inductive AttrValue where
  | str (s : String)
  | int (n : Int)
deriving Repr, DecidableEq

/-- The conditions that can appear in an emitted failure check. -/
inductive VCond where
  | strIsEmpty
  | strLenLt (n : Nat)
  | strLenGt (n : Nat)
  | intLt (n : Int)
  | intGt (n : Int)
  | parsedLt (n : Int)
  | parsedGt (n : Int)
deriving Repr, DecidableEq

/-- Model of str::parse::<i64> with the question-mark operator. -/
def parseI64 (s : String) : Except SdkError Int :=
  match strToInt? s with
  | some n => .ok n
  | none => .error (.parseIntError s)

/-- Runtime evaluation of one emitted condition against the attribute value
(a kind mismatch cannot occur in generated code and is mapped to an
error). -/
def evalVCond (c : VCond) (v : AttrValue) : Except SdkError Bool :=
  match c, v with
  | .strIsEmpty, .str s => .ok s.data.isEmpty
  | .strLenLt n, .str s => .ok (decide (s.length < n))
  | .strLenGt n, .str s => .ok (decide (n < s.length))
  | .intLt n, .int m => .ok (decide (m < n))
  | .intGt n, .int m => .ok (decide (n < m))
  | .parsedLt n, .str s =>
    match parseI64 s with
    | .ok m => .ok (decide (m < n))
    | .error e => .error e
  | .parsedGt n, .str s =>
    match parseI64 s with
    | .ok m => .ok (decide (n < m))
    | .error e => .error e
  | _, _ => .error .unknown

/-- One emitted statement: either a guarded write of false into slot i, or
the trailing unconditional write of true into slot i. -/
inductive VStmt where
  | setFalseIf (c : VCond) (i : Nat)
  | setTrue (i : Nat)
deriving Repr, DecidableEq

/-- Runtime execution of the emitted statement list over the
validator_results vector. -/
def execVStmts (v : AttrValue) : List VStmt → List Bool → Except SdkError (List Bool)
  | [], results => .ok results
  | .setFalseIf c i :: rest, results =>
    match evalVCond c v with
    | .error e => .error e
    | .ok true => execVStmts v rest (results.set i false)
    | .ok false => execVStmts v rest results
  | .setTrue i :: rest, results => execVStmts v rest (results.set i true)

/-- The StringValidator argument loop: MinLength 0 emits nothing, MinLength 1
emits an emptiness check, larger MinLength a length lower-bound check,
MaxLength a length upper-bound check; each recognized argument marks the
validator as counted (add_validator).  The required and the optional variants
emit the same checks (against self.field resp. the unwrapped option), so one
model covers both. -/
def genStringValidatorArg (i : Nat) (acc : List VStmt × Bool) (arg : ValidatorArgument) :
    List VStmt × Bool :=
  if arg.name = "MinLength" then
    let value := parseNatArg arg.value
    if value = 0 then (acc.1, true)
    else if value = 1 then (acc.1 ++ [.setFalseIf .strIsEmpty i], true)
    else (acc.1 ++ [.setFalseIf (.strLenLt value) i], true)
  else if arg.name = "MaxLength" then
    (acc.1 ++ [.setFalseIf (.strLenGt (parseNatArg arg.value)) i], true)
  else acc

/-- The NumberValidator lower-bound condition, by attribute value kind:
Int64Value compares directly, the string-backed kinds parse first (and can
fail), every other numeric kind is cast to i64 and compared. -/
def numberCondLt (attrType : String) (value : Int) : VCond :=
  if attrType = "Int64Value" then .intLt value
  else if attrType = "StringValue" ∨ attrType = "IntegerValue" ∨ attrType = "SByteValue"
      ∨ attrType = "DecimalValue" then .parsedLt value
  else .intLt value

/-- The NumberValidator upper-bound condition, by attribute value kind. -/
def numberCondGt (attrType : String) (value : Int) : VCond :=
  if attrType = "Int64Value" then .intGt value
  else if attrType = "StringValue" ∨ attrType = "IntegerValue" ∨ attrType = "SByteValue"
      ∨ attrType = "DecimalValue" then .parsedGt value
  else .intGt value

/-- The NumberValidator argument loop: MinInclusive and MaxInclusive emit the
corresponding bound check and mark the validator as counted. -/
def genNumberValidatorArg (attrType : String) (i : Nat) (acc : List VStmt × Bool)
    (arg : ValidatorArgument) : List VStmt × Bool :=
  if arg.name = "MinInclusive" then
    (acc.1 ++ [.setFalseIf (numberCondLt attrType (parseIntArg arg.value)) i], true)
  else if arg.name = "MaxInclusive" then
    (acc.1 ++ [.setFalseIf (numberCondGt attrType (parseIntArg arg.value)) i], true)
  else acc

/-- The validator loop of gen_attr_validator_stmt_list: list- and enum-typed
attributes skip every validator; a counted StringValidator or NumberValidator
contributes its failure checks followed by the unconditional
validator_results[count] = true statement, and bumps the slot counter;
everything else (including RequiredValidator) contributes nothing.  Returns
the emitted statement list and the final validator_count. -/
def genValidatorLoop (attrType : String) : List AttrValidator → Nat → List VStmt × Nat
  | [], count => ([], count)
  | vd :: rest, count =>
    if startsWithStr "ListValue<" attrType ∨ startsWithStr "EnumValue<" attrType then
      genValidatorLoop attrType rest count
    else if vd.name = "StringValidator" then
      let acc := vd.arguments.foldl (genStringValidatorArg count) ([], false)
      if acc.2 then
        let r := genValidatorLoop attrType rest (count + 1)
        (acc.1 ++ [.setTrue count] ++ r.1, r.2)
      else
        let r := genValidatorLoop attrType rest count
        (acc.1 ++ r.1, r.2)
    else if vd.name = "NumberValidator" then
      let acc := vd.arguments.foldl (genNumberValidatorArg attrType count) ([], false)
      if acc.2 then
        let r := genValidatorLoop attrType rest (count + 1)
        (acc.1 ++ [.setTrue count] ++ r.1, r.2)
      else
        let r := genValidatorLoop attrType rest count
        (acc.1 ++ r.1, r.2)
    else genValidatorLoop attrType rest count

/-- Model of OpenXmlSchemaTypeAttribute::is_validator_required (models.rs);
the validator generator computes the same flag inline. -/
def isValidatorRequired (attr : SchemaAttr) : Bool :=
  attr.validators.any (fun vd => vd.name = "RequiredValidator")

/-- Runtime semantics of the statement block gen_attr_validator_stmt_list
emits for one attribute: when at least one validator was counted, run the
emitted statements over a validator_results vector initialized to all-true
and gate on any slot being true (the generated early return Ok(false) fires
exactly when the gate fails); for an optional attribute holding no value the
block is skipped.  A required attribute always holds a value in the generated
struct, so the required/none combination cannot occur and trivially
passes. -/
def runAttrValidator (attr : SchemaAttr) (v : Option AttrValue) : Except SdkError Bool :=
  let g := genValidatorLoop attr.type attr.validators 0
  if 0 < g.2 then
    match v with
    | some value =>
      match execVStmts value g.1 (List.replicate g.2 true) with
      | .error e => .error e
      | .ok results => .ok (results.any id)
    | none => .ok true
  else .ok true

/-! ## Generated validate() assembly (generator/validator.rs, gen_validators).

gen_validators assembles each impl as the attribute statement list followed
by the child statement list followed by Ok(true).  We fix a representative
flattened composite type (one validated attribute; one required, one
optional and one repeated child of a representative leaf child type) and
transcribe the code the generator emits for it. -/

/-- Sequencing of generated validate statements: an error propagates, a
statement that returned Ok(false) ends the function with Ok(false), and
otherwise control falls through to the next statement. -/
def vstep (r : Except SdkError Bool) (k : Unit → Except SdkError Bool) : Except SdkError Bool :=
  match r with
  | .error e => .error e
  | .ok false => .ok false
  | .ok true => k ()

/-- The representative validated attribute: a required StringValue attribute
with a NumberValidator MinInclusive=0 rule, whose generated check parses the
string as i64 (and so can fail with a parse error). -/
def wvalAttr : SchemaAttr :=
  { qName := "w:val", propertyName := "", type := "StringValue",
    validators := [ { name := "RequiredValidator", arguments := [] },
                    { name := "NumberValidator",
                      arguments := [ { name := "MinInclusive", value := "0" } ] } ] }

/-- Instance of the representative leaf child type (one required validated
attribute). -/
structure WChild where
  val : String
deriving Repr, DecidableEq

/-- Generated validate() of the representative leaf child type: its
attribute statements, then Ok(true). -/
def wChildValidate (x : WChild) : Except SdkError Bool :=
  vstep (runAttrValidator wvalAttr (some (.str x.val))) (fun _ => .ok true)

/-- Instance of the representative flattened composite parent type: one
validated attribute, a required child, an optional child and a repeated
child list. -/
structure PParent where
  val : String
  w : WChild
  wo : Option WChild
  ws : List WChild
deriving Repr, DecidableEq

/-- The generated repeated-child loop: for child in list, if
!child.validate()? return Ok(false). -/
def forAllChildren : List WChild → Except SdkError Bool
  | [] => .ok true
  | c :: rest => vstep (wChildValidate c) (fun _ => forAllChildren rest)

/-- Generated validate() of the representative parent type, assembled the
way gen_validators assembles every impl: the attribute statement list first,
then the child statements (required, optional, repeated, in particle order),
then Ok(true). -/
def pParentValidate (x : PParent) : Except SdkError Bool :=
  vstep (runAttrValidator wvalAttr (some (.str x.val))) (fun _ =>
    vstep (wChildValidate x.w) (fun _ =>
      vstep (match x.wo with
             | some c => wChildValidate c
             | none => .ok true) (fun _ =>
        vstep (forAllChildren x.ws) (fun _ => .ok true))))

/-- The validate order the claim describes (recurse into every child and
field first, then check the instance's own attributes), transcribed for the
same representative type for comparison against the generated order. -/
def pParentValidateClaimOrder (x : PParent) : Except SdkError Bool :=
  vstep (wChildValidate x.w) (fun _ =>
    vstep (match x.wo with
           | some c => wChildValidate c
           | none => .ok true) (fun _ =>
      vstep (forAllChildren x.ws) (fun _ =>
        vstep (runAttrValidator wvalAttr (some (.str x.val))) (fun _ => .ok true))))

/-- The C1 scenario attribute: a required string attribute carrying two
StringValidator MinLength alternatives (5 and 3), so that a short string
fails every configured rule. -/
def minLengthAttr : SchemaAttr :=
  { qName := "w:id", propertyName := "", type := "StringValue",
    validators := [ { name := "RequiredValidator", arguments := [] },
                    { name := "StringValidator",
                      arguments := [ { name := "MinLength", value := "5" } ] },
                    { name := "StringValidator",
                      arguments := [ { name := "MinLength", value := "3" } ] } ] }

/-! ## Schema model and the children-representation decision (models.rs,
generator/deserializer.rs). -/

/-- Model of OpenXmlSchemaTypeParticleOccur (models.rs). -/
structure ParticleOccur where
  max : Nat
  min : Nat
deriving Repr, DecidableEq

/-- Model of OpenXmlSchemaTypeParticle (models.rs): kind, referenced child
name, occurrence bounds, nested items. -/
inductive Particle where
  | mk (kind : String) (name : String) (occurs : List ParticleOccur) (items : List Particle)

/-- Kind of a particle. -/
def Particle.kind : Particle → String
  | .mk k _ _ _ => k

/-- Referenced child name of a particle. -/
def Particle.name : Particle → String
  | .mk _ n _ _ => n

/-- Occurrence bounds of a particle. -/
def Particle.occurs : Particle → List ParticleOccur
  | .mk _ _ o _ => o

/-- Nested items of a particle. -/
def Particle.items : Particle → List Particle
  | .mk _ _ _ i => i

/-- Model of OpenXmlSchemaTypeChild (models.rs). -/
structure SchemaChild where
  name : String
  propertyName : String
deriving Repr, DecidableEq

/-- Model of OpenXmlSchemaType (models.rs), restricted to the fields the
children-representation decision reads. -/
structure SchemaType where
  name : String
  compositeType : String
  baseClass : String
  isDerived : Bool
  isAbstract : Bool
  part : String
  attributes : List SchemaAttr
  children : List SchemaChild
  particle : Particle

/-- Model of OpenXmlSchemaType::is_one_sequence_flatten (models.rs line 78):
the composite_type is OneSequence or the particle kind is Sequence, and
every direct particle item has an empty kind and no items. -/
def isOneSequenceFlatten (t : SchemaType) : Bool :=
  (t.compositeType = "OneSequence" || t.particle.kind = "Sequence")
    && t.particle.items.all (fun p => p.kind = "" && p.items.isEmpty)

/-- Modelled from the spec: the Occurrence enum, which the generators import
from models.rs but whose definition is not among the provided sources. -/
inductive Occurrence where
  | required
  | optional
  | repeated
deriving Repr, DecidableEq

/-- Modelled from the spec: OpenXmlSchemaTypeParticle::as_occurrence, which
the generators call but whose definition is not among the provided sources.
Spec 4.4: occurrence is Required when there is no occurs info, Optional when
min is 0 and max is 1, Repeated otherwise; the inline occurs test of the
serializer generator (serializer.rs lines 169 and 312) agrees. -/
def Particle.asOccurrence (p : Particle) : Occurrence :=
  match p.occurs with
  | [] => .required
  | o :: _ => if o.min = 0 ∧ o.max = 1 then .optional else .repeated

/-- Characters after the first occurrence of a separator (str::split_once
second component; empty when the separator is absent). -/
def afterCharList (c : Char) : List Char → List Char
  | [] => []
  | d :: rest => if d = c then rest else afterCharList c rest

/-- Model of OpenXmlSchemaTypeChild::as_property_name_str (models.rs): the
property-name override when present, otherwise the part of the qualified
name after the first slash. -/
def asPropertyNameStr (c : SchemaChild) : String :=
  if c.propertyName = "" then String.mk (afterCharList '/' c.name.data)
  else c.propertyName

/-- Characters up to and including the first slash (the base-type key
t.name[0..t.name.find('/')+1] used by the derived-type branches). -/
def upToFirstSlash : List Char → List Char
  | [] => []
  | d :: rest => if d = '/' then ['/'] else d :: upToFirstSlash rest

/-- The base-type lookup key of a derived type. -/
def baseTypeName (s : String) : String := String.mk (upToFirstSlash s.data)

/-- The children representation the generated deserializer gives a type:
flattened named fields (one per particle item, each with its property name
and occurrence, in particle order), a single tagged-union children list, no
children field, the leaf-text content field, or a generation-time failure
(missing symbol or unknown base class). -/
inductive ChildrenRepr where
  | flattened (fields : List (String × Occurrence))
  | unionList
  | noField
  | leafText
  | genError
deriving Repr, DecidableEq

/-- The flattened-field computation of gen_deserializers: for every direct
particle item, look its referenced name up in the type's child list
(child_map.try_get, a generation error when absent) and pair the child's
property name with the item's occurrence. -/
def childFieldsOf (t : SchemaType) : Option (List (String × Occurrence)) :=
  t.particle.items.mapM (fun p =>
    (t.children.find? (fun c => c.name = p.name)).map
      (fun c => (asPropertyNameStr c, p.asOccurrence)))

/-- The composite base classes of the generator branch tests. -/
def compositeBaseClasses : List String :=
  ["OpenXmlCompositeElement", "CustomXmlElement", "OpenXmlPartRootElement", "SdtElement"]

/-- The children-representation decision of gen_deserializers
(deserializer.rs lines 128-405); lookupType models
gen_context.type_name_type_map.  Composite types flatten exactly when
is_one_sequence_flatten holds; derived types flatten exactly when
additionally the base type's composite_type is OneSequence; otherwise a
nonempty child list becomes the tagged-union children field. -/
def genChildrenRepr (lookupType : String → Option SchemaType) (t : SchemaType) : ChildrenRepr :=
  if t.baseClass = "OpenXmlLeafTextElement" then .leafText
  else if t.baseClass = "OpenXmlLeafElement" then .noField
  else if t.baseClass ∈ compositeBaseClasses then
    if isOneSequenceFlatten t then
      match childFieldsOf t with
      | some fields => .flattened fields
      | none => .genError
    else if t.children.isEmpty then .noField
    else .unionList
  else if t.isDerived then
    match lookupType (baseTypeName t.name) with
    | none => .genError
    | some base =>
      if isOneSequenceFlatten t && base.compositeType = "OneSequence" then
        match childFieldsOf t with
        | some fields => .flattened fields
        | none => .genError
      else if ¬ t.children.isEmpty then .unionList
      else if base.baseClass = "OpenXmlLeafTextElement" then .leafText
      else .noField
  else .genError

/-- The flatten condition exactly as the claim words it: the particle is a
top-level Sequence (or the composite_type is the one-sequence marker) and
every item directly under it is a plain leaf reference (empty kind, no
sub-items). -/
def flattenSpecCond (t : SchemaType) : Bool :=
  (t.particle.kind = "Sequence" || t.compositeType = "OneSequence")
    && t.particle.items.all (fun p => p.kind = "" && p.items.isEmpty)

/-- A plain leaf particle item referencing a child by name. -/
def leafParticle (n : String) : Particle := .mk "" n [] []

/-- A depth-1 Sequence type with three required leaf children (the concrete
flatten-determinism scenario of the claim). -/
def threeSeqType : SchemaType :=
  { name := "ns/w:abc", compositeType := "", baseClass := "OpenXmlCompositeElement",
    isDerived := false, isAbstract := false, part := "",
    attributes := [],
    children := [⟨"ns/w:c1", ""⟩, ⟨"ns/w:c2", ""⟩, ⟨"ns/w:c3", ""⟩],
    particle := .mk "Sequence" "" []
      [leafParticle "ns/w:c1", leafParticle "ns/w:c2", leafParticle "ns/w:c3"] }

/-- A base type whose composite_type is not the one-sequence marker. -/
def plainBaseType : SchemaType :=
  { name := "Base/", compositeType := "", baseClass := "OpenXmlCompositeElement",
    isDerived := false, isAbstract := true, part := "", attributes := [],
    children := [], particle := .mk "" "" [] [] }

/-- A derived type whose own particle is a depth-1 Sequence of one leaf
child (it passes the claim's flatten test) but whose base type is not a
one-sequence type. -/
def derivedSeqType : SchemaType :=
  { name := "Base/w:d", compositeType := "", baseClass := "Base",
    isDerived := true, isAbstract := false, part := "", attributes := [],
    children := [⟨"ns/w:c1", ""⟩],
    particle := .mk "Sequence" "" [] [leafParticle "ns/w:c1"] }

/-- The type table holding the base of derivedSeqType. -/
def demoLookup : String → Option SchemaType :=
  fun n => if n = "Base/" then some plainBaseType else none

/-! ## The generated xmlns attribute loop (generator/deserializer.rs,
attr_match_stmt_opt, xmlns-carrying branch). -/

/-- The xmlns / xmlns_map / mc_ignorable field triple of part-root and
xmlns-carrying types (xmlns_map modelled as an association list in insertion
order; the Rust HashMap compares as the key-value set). -/
structure XmlnsTriple where
  xmlns : Option String
  xmlnsMap : List (String × String)
  mcIgnorable : Option String
deriving Repr, DecidableEq

/-- HashMap::insert on the association-list model: replace the value when
the key is present, append otherwise. -/
def mapInsert (m : List (String × String)) (k v : String) : List (String × String) :=
  if m.any (fun kv => kv.1 = k) then m.map (fun kv => if kv.1 = k then (k, v) else kv)
  else m ++ [(k, v)]

/-- One iteration of the generated attribute loop for an xmlns-carrying type
(deserializer.rs lines 450-471): an own attribute is captured into its own
field (abstracted here by the own-attribute name list), the exact keys xmlns
and mc:Ignorable are captured into the triple, and the catch-all captures a
key into xmlns_map only when it starts with the byte literal xmlsns: exactly
as the source spells it; captured values go through
decode_and_unescape_value. -/
def processXmlnsAttr (ownNames : List String) (st : XmlnsTriple) (kv : String × String) :
    Except SdkError XmlnsTriple :=
  if kv.1 ∈ ownNames then .ok st
  else if kv.1 = "xmlns" then
    match unescapeStr kv.2 with
    | .ok v => .ok { st with xmlns := some v }
    | .error e => .error e
  else if kv.1 = "mc:Ignorable" then
    match unescapeStr kv.2 with
    | .ok v => .ok { st with mcIgnorable := some v }
    | .error e => .error e
  else
    match stripPrefixChars "xmlsns:".data kv.1.data with
    | some key =>
      match unescapeStr kv.2 with
      | .ok v => .ok { st with xmlnsMap := mapInsert st.xmlnsMap (String.mk key) v }
      | .error e => .error e
    | none => .ok st

/-- The full generated attribute loop over a start tag's attribute pairs. -/
def processXmlnsAttrs (ownNames : List String) (attrs : List (String × String)) :
    Except SdkError XmlnsTriple :=
  attrs.foldlM (processXmlnsAttr ownNames) ⟨none, [], none⟩

/-! ## The generated start-tag attribute region (generator/serializer.rs). -/

/-- One generated own-attribute writer (serializer.rs gen_attr): a required
attribute always writes, an optional one writes only when present; the value
is escaped.  An attribute instance is its serialized name paired with its
optional value (required attributes always carry a value). -/
def writeOwnAttr (w : String) (a : String × Option String) : String :=
  match a.2 with
  | some v => w ++ " " ++ a.1 ++ "=\"" ++ escape v ++ "\""
  | none => w

/-- The generated xmlns attribute block (serializer.rs
xmlns_attr_writer_list, lines 384-442): xmlns, then every xmlns_map entry,
then mc:Ignorable; these values are written without escaping. -/
def writeXmlnsAttrs (x : XmlnsTriple) (w : String) : String :=
  let w1 :=
    match x.xmlns with
    | some v => w ++ " xmlns=\"" ++ v ++ "\""
    | none => w
  let w2 := x.xmlnsMap.foldl (fun acc kv => acc ++ " xmlns:" ++ kv.1 ++ "=\"" ++ kv.2 ++ "\"") w1
  match x.mcIgnorable with
  | some v => w2 ++ " mc:Ignorable=\"" ++ v ++ "\""
  | none => w2

/-- The start-tag region of the generated write_xml for an xmlns-carrying
type (serializer.rs lines 493-526): tag open, the xmlns attribute block,
then the own attributes in schema order, then the closing angle bracket. -/
def writeStartTagGen (tagName : String) (x : XmlnsTriple)
    (attrs : List (String × Option String)) : String :=
  let w := "<" ++ tagName
  let w := writeXmlnsAttrs x w
  let w := attrs.foldl writeOwnAttr w
  w ++ ">"

/-- The start-tag region in the order and escaping discipline the claim
describes: own attributes in schema order first, then xmlns, then every
xmlns_map entry, then mc:Ignorable, with every emitted attribute value
escaped. -/
def writeStartTagClaim (tagName : String) (x : XmlnsTriple)
    (attrs : List (String × Option String)) : String :=
  let w := "<" ++ tagName
  let w := attrs.foldl writeOwnAttr w
  let w1 :=
    match x.xmlns with
    | some v => w ++ " xmlns=\"" ++ escape v ++ "\""
    | none => w
  let w2 :=
    x.xmlnsMap.foldl (fun acc kv => acc ++ " xmlns:" ++ kv.1 ++ "=\"" ++ escape kv.2 ++ "\"") w1
  let w3 :=
    match x.mcIgnorable with
    | some v => w2 ++ " mc:Ignorable=\"" ++ escape v ++ "\""
    | none => w2
  w3 ++ ">"

/-! ## OPC content-types (includes/packages/opc_content_types.rs).

The hand-written [Content_Types].xml model: Types with the xmlns triple and a
tagged-union child list of Default and Override records (plus the None
placeholder variant that is the Rust derive(Default) default). -/

/-- Model of the Default record (a file-extension content type). -/
structure OpcDefault where
  extension : String
  contentType : String
deriving Repr, DecidableEq

/-- Model of the Override record (a per-part content type). -/
structure OpcOverride where
  contentType : String
  partName : String
deriving Repr, DecidableEq

/-- Model of TypesChildChoice, including its defaulted None variant. -/
inductive TypesChildChoice where
  | defaultChild (d : OpcDefault)
  | overrideChild (o : OpcOverride)
  | noneChild
deriving Repr, DecidableEq

/-- Model of Types (xmlns_map as an association list in iteration order). -/
structure Types where
  xmlns : Option String
  xmlnsMap : List (String × String)
  mcIgnorable : Option String
  children : List TypesChildChoice
deriving Repr, DecidableEq

/-- Default::write_xml: a self-closing tag with the two escaped
attributes. -/
def OpcDefault.writeXml (x : OpcDefault) (withXmlns : Bool) (w : String) : String :=
  let w := w ++ (if withXmlns then "<w:Default" else "<Default")
  let w := w ++ " " ++ "Extension" ++ "=\"" ++ escape x.extension ++ "\""
  let w := w ++ " " ++ "ContentType" ++ "=\"" ++ escape x.contentType ++ "\""
  w ++ "/>"

/-- Override::write_xml: a self-closing tag with the two escaped
attributes. -/
def OpcOverride.writeXml (x : OpcOverride) (withXmlns : Bool) (w : String) : String :=
  let w := w ++ (if withXmlns then "<w:Override" else "<Override")
  let w := w ++ " ContentType=\"" ++ escape x.contentType ++ "\""
  let w := w ++ " PartName=\"" ++ escape x.partName ++ "\""
  w ++ "/>"

/-- The child dispatch of Types::write_xml (a None child writes nothing). -/
def writeTypesChild (withXmlns : Bool) (w : String) (c : TypesChildChoice) : String :=
  match c with
  | .defaultChild d => d.writeXml withXmlns w
  | .overrideChild o => o.writeXml withXmlns w
  | .noneChild => w

/-- Types::write_xml: the XML declaration, the start tag with xmlns, the
xmlns_map entries and mc:Ignorable written raw (no escaping), the children,
and the end tag.  The root tag is never self-closing. -/
def Types.writeXml (x : Types) (withXmlns : Bool) : String :=
  let w := "<?xml version=\"1.0\" encoding=\"UTF-8\"?>\r\n"
  let w := w ++ "<" ++ (if withXmlns then "w:Types" else "Types")
  let w :=
    match x.xmlns with
    | some v => w ++ " xmlns=\"" ++ v ++ "\""
    | none => w
  let w := x.xmlnsMap.foldl (fun acc kv => acc ++ " xmlns:" ++ kv.1 ++ "=\"" ++ kv.2 ++ "\"") w
  let w :=
    match x.mcIgnorable with
    | some v => w ++ " mc:Ignorable=\"" ++ v ++ "\""
    | none => w
  let w := w ++ ">"
  let w := x.children.foldl (writeTypesChild withXmlns) w
  w ++ (if withXmlns then "</w:Types>" else "</Types>")

/-- The canonical content-types namespace URI. -/
def contentTypesUri : String := "http://schemas.openxmlformats.org/package/2006/content-types"

/-- Types::to_xml: write with the namespace-prefixed tag unless the declared
xmlns equals the canonical content-types URI. -/
def Types.toXml (x : Types) : String :=
  x.writeXml
    (match x.xmlns with
     | some v => v != contentTypesUri
     | none => true)

/-! ## The XML tokenizer collaborator.

Modelled from the spec: the streaming XML tokenizer (quick_xml) is an
external collaborator, specified at its interface (spec 6): it produces
Start/Empty/End/Text/Eof events with tag names and raw attribute key/value
pairs.  The model below tokenizes the grammar the serializers emit: markup
split at angle brackets, a trailing slash marking an empty tag, a tag name
running to the first whitespace, and attributes of the form key="value". -/

/-- XML whitespace. -/
def isXmlSpace (c : Char) : Bool := c = ' ' ∨ c = '\t' ∨ c = '\r' ∨ c = '\n'

/-- Attribute scanning inside one tag, with fuel (one unit per attribute):
skip whitespace, stop at the end or at the trailing slash, read a key up to
the equals sign, then a double-quoted raw value. -/
def parseAttrsFuel : Nat → List Char → List (String × String)
  | 0, _ => []
  | fuel + 1, cs =>
    let cs1 := cs.dropWhile isXmlSpace
    match cs1 with
    | [] => []
    | c :: _ =>
      if c = '/' then []
      else
        let key := cs1.takeWhile (fun d => ¬ (d = '=' ∨ isXmlSpace d))
        let rest1 := cs1.drop key.length
        if rest1.headD ' ' = '=' ∧ (rest1.drop 1).headD ' ' = '"' then
          let rest2 := rest1.drop 2
          let val := rest2.takeWhile (fun d => d ≠ '"')
          (String.mk key, String.mk val) :: parseAttrsFuel fuel (rest2.drop (val.length + 1))
        else []

/-- Classify the content between an opening angle bracket and the matching
closing one (not a declaration, not an end tag): a trailing slash makes an
Empty event, the name runs to the first whitespace, the rest is scanned for
attributes. -/
def parseTagContent (content : List Char) : XmlEvent :=
  let isEmptyTag := content.getLast? = some '/'
  let content2 := if isEmptyTag then content.dropLast else content
  let nameChars := content2.takeWhile (fun c => ¬ isXmlSpace c)
  let attrs := parseAttrsFuel content2.length (content2.drop nameChars.length)
  let t : StartTag := ⟨String.mk nameChars, attrs⟩
  if isEmptyTag then .empty t else .start t

/-- The tokenizer, with fuel (one unit per produced event; every event
consumes at least one character, so fuel = input length suffices).
Unterminated markup at the end of input produces no further events (the
reader then reports end of input). -/
def tokenizeFuel : Nat → List Char → List XmlEvent
  | 0, _ => []
  | _ + 1, [] => []
  | fuel + 1, c :: rest =>
    if c = '<' then
      if (rest.headD ' ') = '?' then
        let content := (rest.drop 1).takeWhile (fun d => d ≠ '>')
        if content.length = (rest.drop 1).length then []
        else .decl :: tokenizeFuel fuel ((rest.drop 1).drop (content.length + 1))
      else if (rest.headD ' ') = '/' then
        let content := (rest.drop 1).takeWhile (fun d => d ≠ '>')
        if content.length = (rest.drop 1).length then []
        else .endTag (String.mk content)
          :: tokenizeFuel fuel ((rest.drop 1).drop (content.length + 1))
      else
        let content := rest.takeWhile (fun d => d ≠ '>')
        if content.length = rest.length then []
        else parseTagContent content :: tokenizeFuel fuel (rest.drop (content.length + 1))
    else
      let txt := (c :: rest).takeWhile (fun d => d ≠ '<')
      .text (String.mk txt) :: tokenizeFuel fuel ((c :: rest).drop txt.length)

/-- Tokenize a document string. -/
def tokenize (s : String) : List XmlEvent := tokenizeFuel s.data.length s.data

/-! ## OPC content-types deserializers. -/

/-- One step of the attribute loop of Default::deserialize_inner. -/
def opcDefaultAttrStep (st : Option String × Option String) (kv : String × String) :
    Except SdkError (Option String × Option String) :=
  if kv.1 = "Extension" then
    match unescapeStr kv.2 with
    | .ok v => .ok (some v, st.2)
    | .error err => .error err
  else if kv.1 = "ContentType" then
    match unescapeStr kv.2 with
    | .ok v => .ok (st.1, some v)
    | .error err => .error err
  else .ok st

/-- The attribute loop and field unwraps of Default::deserialize_inner, over
the supplied start tag (the pre-read event path never touches the
reader). -/
def OpcDefault.fromEvent (e : StartTag) : Except SdkError OpcDefault :=
  match e.attrs.foldlM opcDefaultAttrStep (none, none) with
  | .error err => .error err
  | .ok (none, _) => .error (.common "extension")
  | .ok (some _, none) => .error (.common "content_type")
  | .ok (some ext, some ct) => .ok ⟨ext, ct⟩

/-- One step of the attribute loop of Override::deserialize_inner. -/
def opcOverrideAttrStep (st : Option String × Option String) (kv : String × String) :
    Except SdkError (Option String × Option String) :=
  if kv.1 = "ContentType" then
    match unescapeStr kv.2 with
    | .ok v => .ok (some v, st.2)
    | .error err => .error err
  else if kv.1 = "PartName" then
    match unescapeStr kv.2 with
    | .ok v => .ok (st.1, some v)
    | .error err => .error err
  else .ok st

/-- The attribute loop and field unwraps of Override::deserialize_inner,
over the supplied start tag. -/
def OpcOverride.fromEvent (e : StartTag) : Except SdkError OpcOverride :=
  match e.attrs.foldlM opcOverrideAttrStep (none, none) with
  | .error err => .error err
  | .ok (none, _) => .error (.common "content_type")
  | .ok (some _, none) => .error (.common "part_name")
  | .ok (some ct, some pn) => .ok ⟨ct, pn⟩

/-- Default::deserialize_inner: expect the dual-form tag, then read the
attributes; with a pre-read event supplied no reader event is consumed. -/
def OpcDefault.deserializeInner (events : List XmlEvent)
    (xmlEvent : Option (StartTag × Bool)) : Except SdkError (OpcDefault × List XmlEvent) :=
  match expectEventStart events xmlEvent "w:Default" "Default" with
  | .error e => .error e
  | .ok ((e, _), rest) =>
    match OpcDefault.fromEvent e with
    | .ok d => .ok (d, rest)
    | .error err => .error err

/-- Override::deserialize_inner. -/
def OpcOverride.deserializeInner (events : List XmlEvent)
    (xmlEvent : Option (StartTag × Bool)) : Except SdkError (OpcOverride × List XmlEvent) :=
  match expectEventStart events xmlEvent "w:Override" "Override" with
  | .error e => .error e
  | .ok ((e, _), rest) =>
    match OpcOverride.fromEvent e with
    | .ok o => .ok (o, rest)
    | .error err => .error err

/-- One step of the attribute loop of Types::deserialize_inner: the exact
keys xmlns and mc:Ignorable, then the correctly spelled xmlns: catch-all
(key bytes 6 onward become the map key). -/
def typesAttrStep (st : XmlnsTriple) (kv : String × String) : Except SdkError XmlnsTriple :=
  if kv.1 = "xmlns" then
    match unescapeStr kv.2 with
    | .ok v => .ok { st with xmlns := some v }
    | .error e => .error e
  else if kv.1 = "mc:Ignorable" then
    match unescapeStr kv.2 with
    | .ok v => .ok { st with mcIgnorable := some v }
    | .error e => .error e
  else
    match stripPrefixChars "xmlns:".data kv.1.data with
    | some key =>
      match unescapeStr kv.2 with
      | .ok v => .ok { st with xmlnsMap := mapInsert st.xmlnsMap (String.mk key) v }
      | .error e => .error e
    | none => .ok st

/-- The child dispatch of the Types child loop: a Default or Override tag
(prefixed or bare) recursively deserializes from the buffered event and is
appended; anything else is the hard unrecognized-child error naming the
type.  The child deserializers receive the buffered event, so they consume
no reader events. -/
def typesDispatchChild (e : StartTag) (children : List TypesChildChoice) :
    Except SdkError (List TypesChildChoice) :=
  if e.name = "w:Default" ∨ e.name = "Default" then
    match OpcDefault.fromEvent e with
    | .ok d => .ok (children ++ [.defaultChild d])
    | .error err => .error err
  else if e.name = "w:Override" ∨ e.name = "Override" then
    match OpcOverride.fromEvent e with
    | .ok o => .ok (children ++ [.overrideChild o])
    | .error err => .error err
  else .error (.common "Types")

/-- The child loop of Types::deserialize_inner: buffer a Start/Empty event
and dispatch it, break on an End event matching either form of the Types
tag, skip other events, and fail at end of input. -/
def typesChildLoop : List XmlEvent → List TypesChildChoice →
    Except SdkError (List TypesChildChoice × List XmlEvent)
  | [], _ => .error .unknown
  | .start e :: rest, children =>
    match typesDispatchChild e children with
    | .ok cs => typesChildLoop rest cs
    | .error err => .error err
  | .empty e :: rest, children =>
    match typesDispatchChild e children with
    | .ok cs => typesChildLoop rest cs
    | .error err => .error err
  | .endTag n :: rest, children =>
    if n = "w:Types" ∨ n = "Types" then .ok (children, rest)
    else typesChildLoop rest children
  | .text _ :: rest, children => typesChildLoop rest children
  | .decl :: rest, children => typesChildLoop rest children

/-- Types::deserialize_inner: expect the dual-form root tag, run the
attribute loop, then (unless the tag was self-closing) the child loop. -/
def Types.deserializeInner (events : List XmlEvent) (xmlEvent : Option (StartTag × Bool)) :
    Except SdkError (Types × List XmlEvent) :=
  match expectEventStart events xmlEvent "w:Types" "Types" with
  | .error e => .error e
  | .ok ((e, emptyTag), rest) =>
    match e.attrs.foldlM typesAttrStep ⟨none, [], none⟩ with
    | .error err => .error err
    | .ok st =>
      if emptyTag then .ok (⟨st.xmlns, st.xmlnsMap, st.mcIgnorable, []⟩, rest)
      else
        match typesChildLoop rest [] with
        | .error err => .error err
        | .ok (children, rest2) => .ok (⟨st.xmlns, st.xmlnsMap, st.mcIgnorable, children⟩, rest2)

/-- The round trip of the claim: deserialize (through the tokenizer
collaborator) the string write_xml produced. -/
def typesRoundTrip (x : Types) (withXmlns : Bool) : Except SdkError (Types × List XmlEvent) :=
  Types.deserializeInner (tokenize (x.writeXml withXmlns)) none

/-! ## Package save (generator/open_xml_part.rs, gen_save_zip_fn). -/

/-- The runtime shape of one part's generated save_zip: its directory path
template (paths.general), whether its part kind writes a content entry (at
inner_path), whether the part schema declares children (which decides
whether the rels block is generated at all), whether relationships is Some
at runtime (with the rels file at rels_path), and the child parts actually
present at runtime, in traversal order. -/
inductive SavePart where
  | mk (pathsGeneral : String) (hasContent : Bool) (innerPath : String)
      (declaresChildren : Bool) (hasRels : Bool) (relsPath : String)
      (children : List SavePart)

/-- The zip-writer state during a save: the archive paths written so far (in
order) and the entries-written dedup set (membership only). -/
structure SaveState where
  written : List String
  entrySet : List String
deriving Repr, DecidableEq

/-- The generated directory-entry write: skipped when the path is empty or
already in the entry set; otherwise the directory is added and the path
inserted into the set. -/
def writeDirEntry (path : String) (st : SaveState) : SaveState :=
  if path = "" ∨ path ∈ st.entrySet then st
  else { written := st.written ++ [path], entrySet := path :: st.entrySet }

/-- The generated file-entry write: skipped when the path is already in the
entry set; otherwise the file is written and the path inserted into the
set. -/
def writeFileEntry (path : String) (st : SaveState) : SaveState :=
  if path ∈ st.entrySet then st
  else { written := st.written ++ [path], entrySet := path :: st.entrySet }

/-- The no-duplicate-write invariant: the written list has no duplicates
and every written path has been recorded in the entry set. -/
def SaveInv (st : SaveState) : Prop :=
  st.written.Nodup ∧ ∀ x ∈ st.written, x ∈ st.entrySet

/-- The path_str computation of gen_open_xml_parts: empty for an empty
paths.general, otherwise paths.general followed by a slash. -/
def pathStrOf (g : String) : String := if g = "" then "" else g ++ "/"

/-- The generated save_zip walk: write the parent directory entry and the
part directory entry (each guarded and empty-skipping), the part content
entry when the part kind has one (guarded), then for a part with declared
children and Some relationships the rels directory entry and the rels file
entry (guarded), and finally recurse into every child part with the child
parent path. -/
def saveZip (p : SavePart) (parentPath : String) (st : SaveState) : SaveState :=
  match p with
  | .mk g hasContent innerPath declaresChildren hasRels relsPath children =>
    let st := writeDirEntry (resolveZipFilePath parentPath) st
    let st := writeDirEntry (resolveZipFilePath (parentPath ++ g ++ "/")) st
    let st := if hasContent then writeFileEntry innerPath st else st
    let childParentPath := parentPath ++ pathStrOf g
    let st :=
      if declaresChildren ∧ hasRels then
        let st := writeDirEntry (resolveZipFilePath (childParentPath ++ "_rels")) st
        writeFileEntry relsPath st
      else st
    children.attach.foldl (fun acc c => saveZip c.1 childParentPath acc) st
termination_by sizeOf p
decreasing_by
  simp_wf
  have h := List.sizeOf_lt_of_mem c.2
  omega

/-! ## Named concrete instances used by the claim theorems. -/

/-- A Types instance whose children list holds the defaulted None variant
(the Rust value Types with children vec![TypesChildChoice::default()]). -/
def typesWithNoneChild : Types := ⟨none, [], none, [.noneChild]⟩

/-- A well-behaved Types instance: canonical xmlns, one xmlns_map entry, an
mc:Ignorable value, one Default child and one Override child. -/
def typesDemo : Types :=
  ⟨some contentTypesUri, [("a", "u1")], some "w14",
    [.defaultChild ⟨"xml", "application/xml"⟩,
     .overrideChild ⟨"ct", "/word/document.xml"⟩]⟩

/-- A two-level part tree whose parts share directories (the rels directory
collides with the part directory). -/
def demoSavePart : SavePart :=
  .mk "" false "" true true "_rels/.rels"
    [.mk "word" true "word/document.xml" true true "word/_rels/document.xml.rels"
      [.mk "word/media" true "word/media/image1.png" false false "" []],
     .mk "word" true "word/theme/theme1.xml" false false "" []]

/-- The child statement block of the generated validate() of the
representative parent type (the statements gen_validators places after the
attribute statements): required child, optional child, repeated children,
falling through to Ok(true). -/
def pParentChildrenValidate (x : PParent) : Except SdkError Bool :=
  vstep (wChildValidate x.w) (fun _ =>
    vstep (match x.wo with
           | some c => wChildValidate c
           | none => .ok true) (fun _ =>
      vstep (forAllChildren x.ws) (fun _ => .ok true)))

/-! ## Safety side conditions for the content-types round trip. -/

/-- A character that may appear raw in serialized markup without disturbing
the tokenizer or the unescaper: not an angle bracket, not a double quote,
not an ampersand. -/
def rawSafeChar (c : Char) : Bool := ¬ (c = '<' ∨ c = '>' ∨ c = '"' ∨ c = '&')

/-- A string whose characters are all raw-safe (the values the serializer
writes without escaping must satisfy this to survive the round trip). -/
def rawSafe (s : String) : Bool := s.data.all rawSafeChar

/-- A raw-safe attribute-key character: additionally no whitespace, no
equals sign, no slash. -/
def keySafeChar (c : Char) : Bool :=
  rawSafeChar c && ¬ isXmlSpace c && c ≠ '=' && c ≠ '/'

/-- An xmlns map prefix that survives the round trip as an attribute key. -/
def keySafe (s : String) : Bool := s.data.all keySafeChar

/-- The side condition of the amended round-trip claim: no None placeholder
child, raw-safe xmlns, mc:Ignorable and xmlns_map values, key-safe and
pairwise distinct xmlns_map prefixes.  The escaped Default and Override
fields need no condition. -/
def TypesSafe (x : Types) : Prop :=
  (∀ v, x.xmlns = some v → rawSafe v = true)
    ∧ (∀ v, x.mcIgnorable = some v → rawSafe v = true)
    ∧ (∀ kv ∈ x.xmlnsMap, keySafe kv.1 = true ∧ rawSafe kv.2 = true)
    ∧ (x.xmlnsMap.map Prod.fst).Nodup
    ∧ (∀ c ∈ x.children, c ≠ TypesChildChoice.noneChild)

instance (x : Types) : Decidable (TypesSafe x) := by
  unfold TypesSafe
  infer_instance

/-! ## Serialized-form helpers (used to state the lexing lemmas). -/

/-- The characters of one serialized attribute: a space, the key, an equals
sign and the double-quoted value. -/
def attrChars (kv : String × String) : List Char :=
  ' ' :: (kv.1.data ++ '=' :: '"' :: kv.2.data ++ ['"'])

/-- The characters of a serialized attribute list. -/
def attrsChars : List (String × String) → List Char
  | [] => []
  | kv :: rest => attrChars kv ++ attrsChars rest

/-- The attribute pairs the root start tag of Types::write_xml carries, in
emission order: xmlns, the xmlns_map entries, mc:Ignorable. -/
def typesRootAttrs (x : Types) : List (String × String) :=
  (match x.xmlns with
   | some v => [("xmlns", v)]
   | none => [])
    ++ x.xmlnsMap.map (fun kv => ("xmlns:" ++ kv.1, kv.2))
    ++ (match x.mcIgnorable with
        | some v => [("mc:Ignorable", v)]
        | none => [])

/-- The attribute pairs a serialized Default child carries. -/
def opcDefaultAttrs (d : OpcDefault) : List (String × String) :=
  [("Extension", escape d.extension), ("ContentType", escape d.contentType)]

/-- The attribute pairs a serialized Override child carries. -/
def opcOverrideAttrs (o : OpcOverride) : List (String × String) :=
  [("ContentType", escape o.contentType), ("PartName", escape o.partName)]

/-- The events the serialized children of a Types value tokenize to: one
Empty event per Default or Override child, nothing for a None child. -/
def typesChildEvents : List TypesChildChoice → Bool → List XmlEvent
  | [], _ => []
  | .defaultChild d :: rest, withXmlns =>
    .empty ⟨if withXmlns then "w:Default" else "Default", opcDefaultAttrs d⟩
      :: typesChildEvents rest withXmlns
  | .overrideChild o :: rest, withXmlns =>
    .empty ⟨if withXmlns then "w:Override" else "Override", opcOverrideAttrs o⟩
      :: typesChildEvents rest withXmlns
  | .noneChild :: rest, withXmlns => typesChildEvents rest withXmlns

/-- Tokenizing a character list with its own length as fuel (the form in
which the lexing lemmas chain). -/
def tokList (cs : List Char) : List XmlEvent := tokenizeFuel cs.length cs

/-- The side conditions an attribute list must meet to tokenize back to
itself: nonempty keys free of whitespace, equals signs and slashes (and of
raw-unsafe characters), and values free of double quotes and closing angle
brackets. -/
def SafeAttrsChars (attrs : List (String × String)) : Prop :=
  ∀ kv ∈ attrs,
    kv.1.data ≠ []
      ∧ (∀ c ∈ kv.1.data, ¬ isXmlSpace c = true ∧ c ≠ '=' ∧ c ≠ '/' ∧ c ≠ '>' ∧ c ≠ '"')
      ∧ ∀ c ∈ kv.2.data, c ≠ '"' ∧ c ≠ '>'

/-- The characters the serialized children of a Types value occupy: one
self-closing tag per Default or Override child, nothing for a None child. -/
def typesChildrenChars (b : Bool) : List TypesChildChoice → List Char
  | [] => []
  | .defaultChild d :: rest =>
    '<' :: (if b then "w:Default" else "Default").data ++ attrsChars (opcDefaultAttrs d)
      ++ '/' :: '>' :: typesChildrenChars b rest
  | .overrideChild o :: rest =>
    '<' :: (if b then "w:Override" else "Override").data ++ attrsChars (opcOverrideAttrs o)
      ++ '/' :: '>' :: typesChildrenChars b rest
  | .noneChild :: rest => typesChildrenChars b rest

end Ooxmlsdk

deriving instance DecidableEq for Except

namespace Ooxmlsdk

/-! # Theorems -/

/-! ## Pre-read events bypass the tag check (C10) -/

/-- C10: when the caller supplies an already-peeked start or empty event,
expect_event_start returns it unchanged without comparing its tag against
the expected prefixed or bare form, and never produces a MismatchError on
this path. -/
theorem preread_event_skips_tag_check_c10 (events : List XmlEvent) (t : StartTag) (b : Bool)
    (tagPrefixed tag : String) :
    expectEventStart events (some (t, b)) tagPrefixed tag = .ok ((t, b), events) := rfl

/-! ## Dual-form tag matching (C6) -/

/-- C6: when expect_event_start reads the next Start or Empty event from the
reader, the event is accepted exactly when its tag equals the prefixed or
the bare expected form; any other tag yields a MismatchError carrying both
expected forms and the found tag. -/
theorem dual_tag_match_c6 (events : List XmlEvent) (tagPrefixed tag : String)
    (t : StartTag) (b : Bool) (rest : List XmlEvent)
    (h : readStartOrEmpty events = .ok ((t, b), rest)) :
    expectEventStart events none tagPrefixed tag =
      if t.name = tagPrefixed ∨ t.name = tag then .ok ((t, b), rest)
      else .error (.mismatch (tagPrefixed ++ " OR " ++ tag) t.name) := by
  unfold expectEventStart
  rw [h]

/-- C6 witness: the canonical w:body tag matches the events body and w:body
and rejects w:p with the documented MismatchError. -/
theorem dual_tag_match_c6_witness :
    expectEventStart [XmlEvent.start ⟨"body", []⟩] none "w:body" "body"
        = .ok ((⟨"body", []⟩, false), [])
      ∧ expectEventStart [XmlEvent.start ⟨"w:body", []⟩] none "w:body" "body"
        = .ok ((⟨"w:body", []⟩, false), [])
      ∧ expectEventStart [XmlEvent.start ⟨"w:p", []⟩] none "w:body" "body"
        = .error (.mismatch "w:body OR body" "w:p") := by
  refine ⟨?_, ?_, ?_⟩
  · rw [dual_tag_match_c6 [XmlEvent.start ⟨"body", []⟩] "w:body" "body" ⟨"body", []⟩ false [] rfl]
    decide
  · rw [dual_tag_match_c6 [XmlEvent.start ⟨"w:body", []⟩] "w:body" "body" ⟨"w:body", []⟩ false []
      rfl]
    decide
  · rw [dual_tag_match_c6 [XmlEvent.start ⟨"w:p", []⟩] "w:body" "body" ⟨"w:p", []⟩ false [] rfl]
    decide

/-! ## Relationship target resolution (C8) -/

/-- The resolution stack never holds an empty, dot or dot-dot component. -/
theorem resolveStep_stack_good (comps : List String) :
    ∀ stack : List String, (∀ c ∈ stack, ¬ (c = "" ∨ c = "." ∨ c = "..")) →
      ∀ c ∈ List.foldl resolveStep stack comps, ¬ (c = "" ∨ c = "." ∨ c = "..") := by
  induction comps with
  | nil => intro stack h; simpa using h
  | cons comp rest ih =>
    intro stack h
    simp only [List.foldl_cons]
    apply ih
    intro c hc
    unfold resolveStep at hc
    split at hc
    · exact h c hc
    · split at hc
      · exact h c ((List.dropLast_sublist stack).subset hc)
      · rcases List.mem_append.mp hc with h1 | h1
        · exact h c h1
        · rename_i hne1 hne2
          rcases List.mem_singleton.mp h1 with rfl
          intro hbad
          rcases hbad with hb | hb | hb
          · exact hne1 (Or.inl hb)
          · exact hne1 (Or.inr hb)
          · exact hne2 hb

/-- C8: relationship targets are resolved by concatenating the current part
directory with the target and normalizing; the concrete examples of the
claim hold, and no empty, dot or dot-dot component survives
normalization. -/
theorem relationship_target_resolution_c8 :
    childTargetPath "" "word/document.xml" = "word/document.xml"
      ∧ childTargetPath "word/" "../media/image1.png" = "media/image1.png"
      ∧ ∀ (path c : String),
          c ∈ List.foldl resolveStep [] ((splitSlash path.data).map String.mk) →
          ¬ (c = "" ∨ c = "." ∨ c = "..") := by
  refine ⟨by decide, by decide, ?_⟩
  intro path c hc
  exact resolveStep_stack_good _ [] (by simp) c hc

/-- C8 witness: the general component statement applied to a concrete
path. -/
theorem relationship_target_resolution_c8_witness :
    "media" ∈ List.foldl resolveStep [] ((splitSlash ("word/../media/image1.png").data).map
        String.mk)
      ∧ ¬ (("media" : String) = "" ∨ ("media" : String) = "." ∨ ("media" : String) = "..") :=
  ⟨by decide, relationship_target_resolution_c8.2.2 "word/../media/image1.png" "media" (by decide)⟩

/-! ## The xmlns-prefix capture typo (C2) -/

/-- C2: the generated attribute loop never captures an attribute whose
qualified name has the form xmlns:p, because the emitted catch-all matches
the misspelled byte literal xmlsns: — the declaration xmlns:r leaves
xmlns_map empty, while a literally misspelled xmlsns:r key would be
captured. -/
theorem xmlns_capture_typo_c2 :
    processXmlnsAttrs [] [("xmlns:r", "uri")] = .ok ⟨none, [], none⟩
      ∧ processXmlnsAttrs [] [("xmlsns:r", "uri")] = .ok ⟨none, [("r", "uri")], none⟩
      ∧ processXmlnsAttrs [] [("xmlns", "u"), ("xmlns:r", "uri"), ("mc:Ignorable", "w14")]
        = .ok ⟨some "u", [], some "w14"⟩ := by
  refine ⟨by decide, by decide, by decide⟩

/-! ## Serializer attribute emission order (C3) -/

/-- A writer-threading fold factors through its empty-accumulator run. -/
theorem foldl_writer_shift {α : Type} (f : String → α → String)
    (hf : ∀ w a, f w a = w ++ f "" a) (l : List α) :
    ∀ w, l.foldl f w = w ++ l.foldl f "" := by
  induction l with
  | nil => intro w; simp [String.append_empty]
  | cons a rest ih =>
    intro w
    simp only [List.foldl_cons]
    rw [ih (f w a), ih (f "" a), hf w a, String.append_assoc]

/-- The own-attribute writer threads its accumulator by appending. -/
theorem writeOwnAttr_shift (w : String) (a : String × Option String) :
    writeOwnAttr w a = w ++ writeOwnAttr "" a := by
  unfold writeOwnAttr
  cases a.2 with
  | none => simp [String.append_empty]
  | some v => simp [String.empty_append, String.append_assoc]

/-- The xmlns map entry writer threads its accumulator by appending. -/
theorem writeXmlnsMapEntry_shift (w : String) (kv : String × String) :
    (fun acc (kv : String × String) => acc ++ " xmlns:" ++ kv.1 ++ "=\"" ++ kv.2 ++ "\"") w kv
      = w ++ (fun acc (kv : String × String) =>
          acc ++ " xmlns:" ++ kv.1 ++ "=\"" ++ kv.2 ++ "\"") "" kv := by
  simp [String.empty_append, String.append_assoc]

/-- The xmlns attribute block threads its accumulator by appending. -/
theorem writeXmlnsAttrs_shift (x : XmlnsTriple) (w : String) :
    writeXmlnsAttrs x w = w ++ writeXmlnsAttrs x "" := by
  obtain ⟨xm, mp, mc⟩ := x
  have hsh := foldl_writer_shift _ writeXmlnsMapEntry_shift mp
  cases xm with
  | none =>
    cases mc with
    | none =>
      simp only [writeXmlnsAttrs]
      rw [hsh w, hsh ""]
    | some v =>
      simp only [writeXmlnsAttrs]
      rw [hsh w, hsh ""]
      simp [String.empty_append, String.append_assoc]
  | some u =>
    cases mc with
    | none =>
      simp only [writeXmlnsAttrs]
      rw [hsh (w ++ " xmlns=\"" ++ u ++ "\""), hsh ("" ++ " xmlns=\"" ++ u ++ "\"")]
      simp [String.empty_append, String.append_assoc]
    | some v =>
      simp only [writeXmlnsAttrs]
      rw [hsh (w ++ " xmlns=\"" ++ u ++ "\""), hsh ("" ++ " xmlns=\"" ++ u ++ "\"")]
      simp [String.empty_append, String.append_assoc]

/-- C3 counterexample: the generated start tag emits the xmlns block before
the own attributes (the claim says own attributes come first), and the xmlns
value is written without escaping (the claim says every emitted attribute
value is escaped). -/
theorem serializer_attr_order_counterexample_c3 :
    writeStartTagGen "w:p" ⟨some "u", [("r", "ur")], some "w14"⟩ [("w:val", some "v")]
        = "<w:p xmlns=\"u\" xmlns:r=\"ur\" mc:Ignorable=\"w14\" w:val=\"v\">"
      ∧ writeStartTagClaim "w:p" ⟨some "u", [("r", "ur")], some "w14"⟩ [("w:val", some "v")]
        = "<w:p w:val=\"v\" xmlns=\"u\" xmlns:r=\"ur\" mc:Ignorable=\"w14\">"
      ∧ writeStartTagGen "w:p" ⟨some "u", [("r", "ur")], some "w14"⟩ [("w:val", some "v")]
        ≠ writeStartTagClaim "w:p" ⟨some "u", [("r", "ur")], some "w14"⟩ [("w:val", some "v")]
      ∧ writeStartTagGen "w:p" ⟨some "a&b", [], none⟩ [] = "<w:p xmlns=\"a&b\">"
      ∧ escape "a&b" = "a&amp;b" := by
  refine ⟨by decide, by decide, by decide, by decide, by decide⟩

/-- C3 amended: the generated start tag is the tag opener, then the xmlns
attribute block (xmlns, the xmlns_map entries, mc:Ignorable, written raw),
then the own attributes in schema order (escaped), then the closing angle
bracket. -/
theorem serializer_attr_order_c3 (tagName : String) (x : XmlnsTriple)
    (attrs : List (String × Option String)) :
    writeStartTagGen tagName x attrs =
      "<" ++ tagName ++ writeXmlnsAttrs x "" ++ attrs.foldl writeOwnAttr "" ++ ">" := by
  simp only [writeStartTagGen]
  rw [writeXmlnsAttrs_shift x ("<" ++ tagName),
    foldl_writer_shift writeOwnAttr writeOwnAttr_shift attrs
      ("<" ++ tagName ++ writeXmlnsAttrs x "")]

/-! ## Attribute validator union semantics (C1) -/

/-- Writing at one index leaves every other getD unchanged. -/
theorem getD_set_ne {α : Type} (r : List α) (i j : Nat) (b d : α) (h : i ≠ j) :
    (r.set i b).getD j d = r.getD j d := by
  rw [List.getD_eq_getElem?_getD, List.getElem?_set, if_neg h, ← List.getD_eq_getElem?_getD]

/-- After setting an index to true, getD with default true reads true
there. -/
theorem getD_set_self_true (r : List Bool) (i : Nat) :
    (r.set i true).getD i true = true := by
  rw [List.getD_eq_getElem?_getD, List.getElem?_set, if_pos rfl]
  split <;> rfl

/-- Every getD of a replicate of trues (with default true) is true. -/
theorem getD_replicate_true (n j : Nat) :
    (List.replicate n true).getD j true = true := by
  rw [List.getD_eq_getElem?_getD, List.getElem?_replicate]
  split <;> rfl

/-- Executing an appended statement list is executing the parts in
sequence. -/
theorem execVStmts_append (v : AttrValue) (A B : List VStmt) :
    ∀ r, execVStmts v (A ++ B) r =
      match execVStmts v A r with
      | .error e => .error e
      | .ok r1 => execVStmts v B r1 := by
  induction A with
  | nil => intro r; rfl
  | cons s rest ih =>
    intro r
    cases s with
    | setFalseIf c i =>
      simp only [List.cons_append, execVStmts]
      cases evalVCond c v with
      | error e => rfl
      | ok b => cases b <;> simp [ih]
    | setTrue i =>
      simp only [List.cons_append, execVStmts]
      exact ih _

/-- Statement execution preserves the vector length. -/
theorem execVStmts_length (v : AttrValue) :
    ∀ (stmts : List VStmt) (r r2 : List Bool),
      execVStmts v stmts r = .ok r2 → r2.length = r.length := by
  intro stmts
  induction stmts with
  | nil =>
    intro r r2 he
    simp only [execVStmts] at he
    cases he
    rfl
  | cons s rest ih =>
    intro r r2 he
    cases s with
    | setFalseIf c i =>
      simp only [execVStmts] at he
      cases hc : evalVCond c v with
      | error e => rw [hc] at he; cases he
      | ok b =>
        rw [hc] at he
        cases b
        · exact ih r r2 he
        · rw [ih (r.set i false) r2 he, List.length_set]
    | setTrue i =>
      simp only [execVStmts] at he
      rw [ih (r.set i true) r2 he, List.length_set]

/-- A statement list consisting only of guarded false-writes at one index
leaves every other index unchanged. -/
theorem execVStmts_falseIf_only (v : AttrValue) (i : Nat) :
    ∀ (stmts : List VStmt), (∀ s ∈ stmts, ∃ c, s = VStmt.setFalseIf c i) →
      ∀ (r r2 : List Bool), execVStmts v stmts r = .ok r2 →
        ∀ j, j ≠ i → r2.getD j true = r.getD j true := by
  intro stmts
  induction stmts with
  | nil =>
    intro _ r r2 he j _
    simp only [execVStmts] at he
    cases he
    rfl
  | cons s rest ih =>
    intro h r r2 he j hj
    obtain ⟨c, rfl⟩ := h s (List.mem_cons_self s rest)
    simp only [execVStmts] at he
    cases hc : evalVCond c v with
    | error e => rw [hc] at he; cases he
    | ok b =>
      rw [hc] at he
      have hrest := fun s hs => h s (List.mem_cons_of_mem _ hs)
      cases b
      · exact ih hrest r r2 he j hj
      · rw [ih hrest (r.set i false) r2 he j hj, getD_set_ne r i j false true (fun hij => hj hij.symm)]

/-- The StringValidator argument fold only appends guarded false-writes at
its slot. -/
theorem genStringValidatorArg_falseIf_only (i : Nat) (args : List ValidatorArgument) :
    ∀ acc : List VStmt × Bool, (∀ s ∈ acc.1, ∃ c, s = VStmt.setFalseIf c i) →
      ∀ s ∈ (args.foldl (genStringValidatorArg i) acc).1, ∃ c, s = VStmt.setFalseIf c i := by
  induction args with
  | nil => intro acc h; exact h
  | cons a rest ih =>
    intro acc h
    apply ih
    intro s hs
    unfold genStringValidatorArg at hs
    dsimp only at hs
    split at hs
    · split at hs
      · exact h s hs
      · split at hs <;>
        · rcases List.mem_append.mp hs with h1 | h1
          · exact h s h1
          · exact ⟨_, List.mem_singleton.mp h1⟩
    · split at hs
      · rcases List.mem_append.mp hs with h1 | h1
        · exact h s h1
        · exact ⟨_, List.mem_singleton.mp h1⟩
      · exact h s hs

/-- The NumberValidator argument fold only appends guarded false-writes at
its slot. -/
theorem genNumberValidatorArg_falseIf_only (ty : String) (i : Nat)
    (args : List ValidatorArgument) :
    ∀ acc : List VStmt × Bool, (∀ s ∈ acc.1, ∃ c, s = VStmt.setFalseIf c i) →
      ∀ s ∈ (args.foldl (genNumberValidatorArg ty i) acc).1, ∃ c, s = VStmt.setFalseIf c i := by
  induction args with
  | nil => intro acc h; exact h
  | cons a rest ih =>
    intro acc h
    apply ih
    intro s hs
    unfold genNumberValidatorArg at hs
    split at hs
    · rcases List.mem_append.mp hs with h1 | h1
      · exact h s h1
      · exact ⟨_, List.mem_singleton.mp h1⟩
    · split at hs
      · rcases List.mem_append.mp hs with h1 | h1
        · exact h s h1
        · exact ⟨_, List.mem_singleton.mp h1⟩
      · exact h s hs

/-- Executing one counted validator block (its guarded false-writes followed
by the unconditional true-write into its slot) restores an all-true
vector. -/
theorem exec_block_allTrue (v : AttrValue) (count : Nat) (blockStmts : List VStmt)
    (honly : ∀ s ∈ blockStmts, ∃ c, s = VStmt.setFalseIf c count)
    (r r2 : List Bool) (h : ∀ j, r.getD j true = true)
    (he : execVStmts v (blockStmts ++ [VStmt.setTrue count]) r = .ok r2) :
    ∀ j, r2.getD j true = true := by
  rw [execVStmts_append] at he
  cases hA : execVStmts v blockStmts r with
  | error e => rw [hA] at he; cases he
  | ok rmid =>
    rw [hA] at he
    simp only [execVStmts] at he
    cases he
    intro j
    by_cases hj : j = count
    · subst hj; exact getD_set_self_true rmid j
    · rw [getD_set_ne rmid count j true true (fun hc => hj hc.symm)]
      rw [execVStmts_falseIf_only v count blockStmts honly r rmid hA j hj]
      exact h j

/-- A StringValidator argument step whose counted flag is still false left
the accumulator untouched. -/
theorem genStringValidatorArg_false_id (i : Nat) (acc : List VStmt × Bool)
    (a : ValidatorArgument) (h : (genStringValidatorArg i acc a).2 = false) :
    genStringValidatorArg i acc a = acc := by
  unfold genStringValidatorArg at h ⊢
  dsimp only at h ⊢
  by_cases h1 : a.name = "MinLength"
  · rw [if_pos h1] at h
    by_cases h2 : parseNatArg a.value = 0
    · rw [if_pos h2] at h; cases h
    · rw [if_neg h2] at h
      by_cases h3 : parseNatArg a.value = 1
      · rw [if_pos h3] at h; cases h
      · rw [if_neg h3] at h; cases h
  · rw [if_neg h1] at h
    by_cases h2 : a.name = "MaxLength"
    · rw [if_pos h2] at h; cases h
    · simp [h1, h2]

/-- A NumberValidator argument step whose counted flag is still false left
the accumulator untouched. -/
theorem genNumberValidatorArg_false_id (ty : String) (i : Nat) (acc : List VStmt × Bool)
    (a : ValidatorArgument) (h : (genNumberValidatorArg ty i acc a).2 = false) :
    genNumberValidatorArg ty i acc a = acc := by
  unfold genNumberValidatorArg at h ⊢
  by_cases h1 : a.name = "MinInclusive"
  · rw [if_pos h1] at h; cases h
  · rw [if_neg h1] at h
    by_cases h2 : a.name = "MaxInclusive"
    · rw [if_pos h2] at h; cases h
    · simp [h1, h2]

/-- A whole argument fold whose counted flag ends false left the accumulator
untouched (generic over the step function, given the one-step version). -/
theorem foldl_false_id {α : Type}
    (step : List VStmt × Bool → α → List VStmt × Bool)
    (hstep : ∀ acc a, (step acc a).2 = false → step acc a = acc) :
    ∀ (args : List α) (acc : List VStmt × Bool),
      (args.foldl step acc).2 = false → args.foldl step acc = acc := by
  intro args
  induction args with
  | nil => intro acc _; rfl
  | cons a rest ih =>
    intro acc h
    simp only [List.foldl_cons] at h ⊢
    have h1 := ih (step acc a) h
    rw [h1] at h ⊢
    rw [hstep acc a h]

/-- Executing the statements the validator loop emits preserves an all-true
vector: each counted validator block may clear only its own slot and ends by
unconditionally setting that slot back to true, so no slot ever stays
false. -/
theorem execVStmts_genLoop_allTrue (v : AttrValue) (ty : String) :
    ∀ (vs : List AttrValidator) (count : Nat) (r r2 : List Bool),
      (∀ j, r.getD j true = true) →
      execVStmts v (genValidatorLoop ty vs count).1 r = .ok r2 →
      ∀ j, r2.getD j true = true := by
  intro vs
  induction vs with
  | nil =>
    intro count r r2 h he j
    simp only [genValidatorLoop, execVStmts] at he
    cases he
    exact h j
  | cons vd rest ih =>
    intro count r r2 h he j
    unfold genValidatorLoop at he
    split at he
    · exact ih count r r2 h he j
    · split at he
      · -- StringValidator
        dsimp only at he
        split at he
        · -- counted: block, then the remaining validators
          rename_i hadd
          rw [execVStmts_append] at he
          cases hA : execVStmts v
              ((vd.arguments.foldl (genStringValidatorArg count) ([], false)).1
                ++ [VStmt.setTrue count]) r with
          | error e => rw [hA] at he; cases he
          | ok r1 =>
            rw [hA] at he
            have hmid := exec_block_allTrue v count
              (vd.arguments.foldl (genStringValidatorArg count) ([], false)).1
              (genStringValidatorArg_falseIf_only count vd.arguments ([], false)
                (by intro s hs; cases hs))
              r r1 h hA
            exact ih (count + 1) r1 r2 hmid he j
        · -- not counted: the accumulator is untouched, nothing was emitted
          rename_i hadd
          rw [foldl_false_id (genStringValidatorArg count)
            (genStringValidatorArg_false_id count) vd.arguments ([], false)
            (Bool.of_not_eq_true hadd)] at he
          simp only [List.nil_append] at he
          exact ih count r r2 h he j
      · split at he
        · -- NumberValidator
          dsimp only at he
          split at he
          · rename_i hadd
            rw [execVStmts_append] at he
            cases hA : execVStmts v
                ((vd.arguments.foldl (genNumberValidatorArg ty count) ([], false)).1
                  ++ [VStmt.setTrue count]) r with
            | error e => rw [hA] at he; cases he
            | ok r1 =>
              rw [hA] at he
              have hmid := exec_block_allTrue v count
                (vd.arguments.foldl (genNumberValidatorArg ty count) ([], false)).1
                (genNumberValidatorArg_falseIf_only ty count vd.arguments ([], false)
                  (by intro s hs; cases hs))
                r r1 h hA
              exact ih (count + 1) r1 r2 hmid he j
          · rename_i hadd
            rw [foldl_false_id (genNumberValidatorArg ty count)
              (genNumberValidatorArg_false_id ty count) vd.arguments ([], false)
              (Bool.of_not_eq_true hadd)] at he
            simp only [List.nil_append] at he
            exact ih count r r2 h he j
        · exact ih count r r2 h he j

/-- The generated attribute check can fail with an error (a failed numeric
parse) or pass, but it can never return Ok(false): the unconditional
validator_results[i] = true emitted after each validator's checks overwrites
every recorded failure, so the any-slot gate always passes. -/
theorem runAttrValidator_ne_ok_false (attr : SchemaAttr) (v : Option AttrValue) :
    runAttrValidator attr v ≠ .ok false := by
  unfold runAttrValidator
  dsimp only
  split
  · rename_i hn
    cases v with
    | none => intro hcon; cases hcon
    | some value =>
      cases he : execVStmts value (genValidatorLoop attr.type attr.validators 0).1
          (List.replicate (genValidatorLoop attr.type attr.validators 0).2 true) with
      | error e => intro hcon; dsimp only at hcon; rw [he] at hcon; cases hcon
      | ok results =>
        intro hcon
        dsimp only at hcon
        rw [he] at hcon
        have hfalse : results.any id = false := by injection hcon
        have hall := execVStmts_genLoop_allTrue value attr.type attr.validators 0 _ results
          (fun j => getD_replicate_true _ j) he
        have hlen := execVStmts_length value _ _ _ he
        rw [List.length_replicate] at hlen
        have hpos : 0 < results.length := by rw [hlen]; exact hn
        have h0 : results.getD 0 true = true := hall 0
        rw [List.getD_eq_getElem results true hpos] at h0
        have : results.any id = true := List.any_eq_true.mpr ⟨results[0], List.getElem_mem hpos, h0⟩
        rw [hfalse] at this
        cases this
  · intro hcon; cases hcon


/-- C1: the OR-union claim fails against the code: a required string
attribute with two StringValidator MinLength alternatives (5 and 3) accepts
the one-character value a, which fails both rules, because the generator
emits an unconditional validator_results[i] = true after each validator's
checks; in fact no generated attribute check ever returns Ok(false). -/
theorem validator_union_bug_c1 :
    runAttrValidator minLengthAttr (some (.str "a")) = .ok true
      ∧ ∀ (attr : SchemaAttr) (v : Option AttrValue), runAttrValidator attr v ≠ .ok false :=
  ⟨by decide, fun attr v => runAttrValidator_ne_ok_false attr v⟩

/-! ## Generated validate() statement order (C4) -/

/-- C4 counterexample: the generated validate checks its own attributes
before recursing into children: on an instance whose own attribute text and
whose required child's attribute text both fail to parse as i64, the
generated order surfaces the parent's parse error, while the claimed
children-first order would surface the child's. -/
theorem validate_order_counterexample_c4 :
    pParentValidate ⟨"oops", ⟨"bad"⟩, none, []⟩ = .error (.parseIntError "oops")
      ∧ pParentValidateClaimOrder ⟨"oops", ⟨"bad"⟩, none, []⟩ = .error (.parseIntError "bad")
      ∧ pParentValidate ⟨"oops", ⟨"bad"⟩, none, []⟩
        ≠ pParentValidateClaimOrder ⟨"oops", ⟨"bad"⟩, none, []⟩ :=
  ⟨by decide, by decide, by decide⟩

/-- C4 amended: the generated validate runs the attribute statement list
first and only then the child statement block: an attribute-check error
preempts the children entirely, and once the attribute check passes the
result is exactly that of the child statement block (which short-circuits
Ok(false) on the first failing child). -/
theorem validate_attrs_first_c4 (x : PParent) :
    (∀ e, runAttrValidator wvalAttr (some (.str x.val)) = .error e →
      pParentValidate x = .error e)
      ∧ (runAttrValidator wvalAttr (some (.str x.val)) = .ok true →
        pParentValidate x = pParentChildrenValidate x) := by
  constructor
  · intro e he
    unfold pParentValidate
    rw [he]
    rfl
  · intro ht
    unfold pParentValidate
    rw [ht]
    rfl

/-- C4 witness: both amended conjuncts applied at concrete instances. -/
theorem validate_attrs_first_c4_witness :
    pParentValidate ⟨"oops", ⟨"0"⟩, none, []⟩ = .error (.parseIntError "oops")
      ∧ pParentValidate ⟨"0", ⟨"1"⟩, none, []⟩
        = pParentChildrenValidate ⟨"0", ⟨"1"⟩, none, []⟩ :=
  ⟨(validate_attrs_first_c4 ⟨"oops", ⟨"0"⟩, none, []⟩).1 (.parseIntError "oops") (by decide),
   (validate_attrs_first_c4 ⟨"0", ⟨"1"⟩, none, []⟩).2 (by decide)⟩

/-! ## The flatten test (C5) -/

/-- C5 counterexample: a derived type whose own particle is a depth-1
Sequence of leaf references satisfies the claimed flatten condition, yet the
generated deserializer gives it the tagged-union children list, because its
base type's composite_type is not the one-sequence marker. -/
theorem flatten_exactly_when_counterexample_c5 :
    flattenSpecCond derivedSeqType = true
      ∧ genChildrenRepr demoLookup derivedSeqType = .unionList :=
  ⟨by decide, by decide⟩

/-- C5 amended: the code's flatten test coincides with the claimed
condition; a composite type is flattened exactly when that condition holds,
while a derived type additionally needs its base type's composite_type to
be the one-sequence marker; a depth-1 Sequence of three required leaf
children yields the three named Required fields in particle order; and a
flattened field's occurrence follows the occurs metadata (Required when
occurs is empty, Optional when min 0 and max 1, Repeated otherwise). -/
theorem flatten_test_c5 :
    (∀ t : SchemaType, isOneSequenceFlatten t = flattenSpecCond t)
      ∧ (∀ (look : String → Option SchemaType) (t : SchemaType)
          (fields : List (String × Occurrence)),
          t.baseClass ∈ compositeBaseClasses → childFieldsOf t = some fields →
          (genChildrenRepr look t = .flattened fields ↔ flattenSpecCond t = true))
      ∧ (∀ (look : String → Option SchemaType) (t base : SchemaType)
          (fields : List (String × Occurrence)),
          t.baseClass ∉ compositeBaseClasses → t.baseClass ≠ "OpenXmlLeafTextElement" →
          t.baseClass ≠ "OpenXmlLeafElement" → t.isDerived = true →
          look (baseTypeName t.name) = some base → childFieldsOf t = some fields →
          (genChildrenRepr look t = .flattened fields
            ↔ (isOneSequenceFlatten t && decide (base.compositeType = "OneSequence")) = true))
      ∧ genChildrenRepr demoLookup threeSeqType
        = .flattened [("w:c1", .required), ("w:c2", .required), ("w:c3", .required)]
      ∧ (∀ p : Particle, (p.occurs = [] → p.asOccurrence = .required)
          ∧ ∀ o rest, p.occurs = o :: rest →
            p.asOccurrence = (if o.min = 0 ∧ o.max = 1 then .optional else .repeated)) := by
  have ha : ∀ t : SchemaType, isOneSequenceFlatten t = flattenSpecCond t := by
    intro t
    simp [isOneSequenceFlatten, flattenSpecCond, Bool.or_comm]
  refine ⟨ha, ?_, ?_, by decide, ?_⟩
  · intro look t fields hmem hcf
    have hne1 : t.baseClass ≠ "OpenXmlLeafTextElement" := by
      intro hcontra
      rw [hcontra] at hmem
      exact absurd hmem (by decide)
    have hne2 : t.baseClass ≠ "OpenXmlLeafElement" := by
      intro hcontra
      rw [hcontra] at hmem
      exact absurd hmem (by decide)
    unfold genChildrenRepr
    rw [if_neg hne1, if_neg hne2, if_pos hmem]
    cases hf : isOneSequenceFlatten t with
    | true =>
      rw [if_pos rfl, hcf]
      have hspec : flattenSpecCond t = true := by rw [← ha t]; exact hf
      simp [hspec]
    | false =>
      rw [if_neg (by decide)]
      have hspec : flattenSpecCond t = false := by rw [← ha t]; exact hf
      rw [hspec]
      constructor
      · intro hcon
        split at hcon <;> cases hcon
      · intro hcon
        cases hcon
  · intro look t base fields hmem hne1 hne2 hder hlook hcf
    unfold genChildrenRepr
    rw [if_neg hne1, if_neg hne2, if_neg hmem, if_pos hder, hlook]
    dsimp only
    cases hf : (isOneSequenceFlatten t && decide (base.compositeType = "OneSequence")) with
    | true =>
      rw [if_pos rfl, hcf]
      simp
    | false =>
      rw [if_neg (by decide)]
      constructor
      · intro hcon
        split at hcon
        · cases hcon
        · split at hcon <;> cases hcon
      · intro hcon
        cases hcon
  · intro p
    constructor
    · intro h
      simp [Particle.asOccurrence, h]
    · intro o rest h
      simp [Particle.asOccurrence, h]

/-- C5 witness: the amended conjuncts applied at the concrete three-child
sequence type, the derived type, and a concrete particle. -/
theorem flatten_test_c5_witness :
    (genChildrenRepr demoLookup threeSeqType
        = .flattened [("w:c1", .required), ("w:c2", .required), ("w:c3", .required)]
      ↔ flattenSpecCond threeSeqType = true)
      ∧ (genChildrenRepr demoLookup derivedSeqType = .flattened [("w:c1", .required)]
        ↔ (isOneSequenceFlatten derivedSeqType
            && decide (plainBaseType.compositeType = "OneSequence")) = true)
      ∧ Particle.asOccurrence (.mk "" "n" [] []) = .required :=
  ⟨flatten_test_c5.2.1 demoLookup threeSeqType _ (by decide) (by decide),
   flatten_test_c5.2.2.1 demoLookup derivedSeqType plainBaseType _ (by decide) (by decide)
     (by decide) (by decide) rfl (by decide),
   (flatten_test_c5.2.2.2.2 (Particle.mk "" "n" [] [])).1 rfl⟩


/-! ## No duplicate archive entries on save (C9) -/

/-- Appending a fresh path preserves the no-duplicate-write invariant. -/
theorem saveInv_push (path : String) (st : SaveState) (h : SaveInv st)
    (hp : path ∉ st.entrySet) :
    SaveInv ⟨st.written ++ [path], path :: st.entrySet⟩ := by
  obtain ⟨h1, h2⟩ := h
  constructor
  · rw [List.nodup_append]
    refine ⟨h1, List.nodup_singleton path, ?_⟩
    intro x hx hx2
    rw [List.mem_singleton] at hx2
    subst hx2
    exact hp (h2 x hx)
  · intro x hx
    rcases List.mem_append.mp hx with hx1 | hx1
    · exact List.mem_cons_of_mem _ (h2 x hx1)
    · rw [List.mem_singleton] at hx1
      subst hx1
      exact List.mem_cons_self _ _

/-- A guarded directory write preserves the invariant. -/
theorem writeDirEntry_inv (path : String) (st : SaveState) (h : SaveInv st) :
    SaveInv (writeDirEntry path st) := by
  unfold writeDirEntry
  split
  · exact h
  · rename_i hcond
    push_neg at hcond
    exact saveInv_push path st h hcond.2

/-- A guarded file write preserves the invariant. -/
theorem writeFileEntry_inv (path : String) (st : SaveState) (h : SaveInv st) :
    SaveInv (writeFileEntry path st) := by
  unfold writeFileEntry
  split
  · exact h
  · rename_i hcond
    exact saveInv_push path st h hcond

/-- A fold whose every step preserves a state predicate preserves it. -/
theorem foldl_preserves {α : Type} (P : SaveState → Prop) (f : SaveState → α → SaveState)
    (l : List α) (hstep : ∀ a ∈ l, ∀ st, P st → P (f st a)) :
    ∀ st, P st → P (l.foldl f st) := by
  induction l with
  | nil => intro st h; exact h
  | cons a rest ih =>
    intro st h
    exact ih (fun b hb st2 hs => hstep b (List.mem_cons_of_mem _ hb) st2 hs)
      (f st a) (hstep a (List.mem_cons_self _ _) st h)

/-- The generated save_zip walk preserves the no-duplicate-write
invariant. -/
theorem saveZip_inv (n : Nat) : ∀ p : SavePart, sizeOf p ≤ n →
    ∀ (pp : String) (st : SaveState), SaveInv st → SaveInv (saveZip p pp st) := by
  induction n with
  | zero =>
    intro p hp
    cases p with
    | mk g c i d hr r children => simp at hp
  | succ n ih =>
    intro p hp pp st h
    cases p with
    | mk g hasContent innerPath declaresChildren hasRels relsPath children =>
      unfold saveZip
      apply foldl_preserves SaveInv _ children.attach
      · intro c _ st2 h2
        apply ih c.1 _ _ st2 h2
        have hlt : sizeOf c.1 < sizeOf children := List.sizeOf_lt_of_mem c.2
        have : sizeOf (SavePart.mk g hasContent innerPath declaresChildren hasRels relsPath
            children) ≤ n + 1 := hp
        simp only [SavePart.mk.sizeOf_spec] at this
        omega
      · dsimp only
        split
        · apply writeFileEntry_inv
          apply writeDirEntry_inv
          split
          · exact writeFileEntry_inv _ _ (writeDirEntry_inv _ _ (writeDirEntry_inv _ _ h))
          · exact writeDirEntry_inv _ _ (writeDirEntry_inv _ _ h)
        · split
          · exact writeFileEntry_inv _ _ (writeDirEntry_inv _ _ (writeDirEntry_inv _ _ h))
          · exact writeDirEntry_inv _ _ (writeDirEntry_inv _ _ h)

/-- C9: the generated save_zip writes every directory and file entry only
when the shared entries-written set does not already contain its path and
records the path immediately after writing, so across the whole recursive
part walk the written path list has no duplicates and stays recorded in the
set. -/
theorem save_zip_no_duplicates_c9 (p : SavePart) (parentPath : String) (st : SaveState)
    (h1 : st.written.Nodup) (h2 : ∀ x ∈ st.written, x ∈ st.entrySet) :
    (saveZip p parentPath st).written.Nodup
      ∧ ∀ x ∈ (saveZip p parentPath st).written, x ∈ (saveZip p parentPath st).entrySet :=
  saveZip_inv (sizeOf p) p le_rfl parentPath st ⟨h1, h2⟩

/-- C9 witness: a fresh save of the demo part tree writes no path twice. -/
theorem save_zip_no_duplicates_c9_witness :
    (saveZip demoSavePart "" ⟨[], []⟩).written.Nodup :=
  (save_zip_no_duplicates_c9 demoSavePart "" ⟨[], []⟩ List.nodup_nil
    (fun x hx => absurd hx (List.not_mem_nil x))).1


/-! ## Round trip of the content-types part (C7): escaping lemmas -/

/-- Length bound for takeWhile. -/
theorem takeWhile_length_le (p : Char → Bool) (l : List Char) :
    (l.takeWhile p).length ≤ l.length := by
  induction l with
  | nil => simp
  | cons a t ih =>
    rw [List.takeWhile_cons]
    split
    · simpa using ih
    · simp

/-- takeWhile over an append stops exactly at the first boundary
character. -/
theorem takeWhile_append_boundary (p : Char → Bool) (u : List Char) (c : Char)
    (v : List Char) (hu : ∀ x ∈ u, p x = true) (hc : p c = false) :
    (u ++ c :: v).takeWhile p = u := by
  induction u with
  | nil => simp [List.takeWhile_cons, hc]
  | cons a t ih =>
    rw [List.cons_append, List.takeWhile_cons, if_pos (hu a (List.mem_cons_self a t))]
    rw [ih (fun x hx => hu x (List.mem_cons_of_mem a hx))]

/-- The characters escape emits for one character never include a double
quote or an angle bracket. -/
theorem escapeChar_safe (c d : Char) (hd : d ∈ escapeChar c) :
    d ≠ '"' ∧ d ≠ '>' ∧ d ≠ '<' := by
  unfold escapeChar at hd
  split_ifs at hd with h1 h2 h3 h4 h5 <;>
    first
      | (rcases List.mem_singleton.mp hd with rfl
         exact ⟨h4, h2, h1⟩)
      | (simp only [List.mem_cons, List.not_mem_nil, or_false] at hd
         rcases hd with rfl | rfl | rfl | rfl | rfl | rfl <;> decide)

/-- The escaped form of a string contains no double quote and no closing
angle bracket. -/
theorem escapeList_safe (cs : List Char) (d : Char) (hd : d ∈ escapeList cs) :
    d ≠ '"' ∧ d ≠ '>' := by
  induction cs with
  | nil => cases hd
  | cons c rest ih =>
    unfold escapeList at hd
    rcases List.mem_append.mp hd with h | h
    · exact ⟨(escapeChar_safe c d h).1, (escapeChar_safe c d h).2.1⟩
    · exact ih h

/-- Unescaping does not depend on the fuel once it covers the input
length. -/
theorem unescapeFuel_congr : ∀ (f : Nat) (cs : List Char) (g : Nat),
    cs.length ≤ f → cs.length ≤ g → unescapeFuel f cs = unescapeFuel g cs := by
  intro f
  induction f with
  | zero =>
    intro cs g hf _
    have hcs : cs = [] := List.length_eq_zero.mp (Nat.le_zero.mp hf)
    subst hcs
    cases g <;> rfl
  | succ f ih =>
    intro cs g hf hg
    cases cs with
    | nil => cases g <;> rfl
    | cons c rest =>
      cases g with
      | zero => simp at hg
      | succ g =>
        show unescapeFuel (f + 1) (c :: rest) = unescapeFuel (g + 1) (c :: rest)
        unfold unescapeFuel
        simp only [List.length_cons, Nat.succ_le_succ_iff] at hf hg
        by_cases hc : c = '&'
        · rw [if_pos hc, if_pos hc]
          dsimp only
          split
          · rfl
          · cases decodeEntity (rest.takeWhile (fun d => d ≠ ';')) with
            | none => rfl
            | some d =>
              dsimp only
              rw [ih (rest.drop ((rest.takeWhile (fun d => d ≠ ';')).length + 1)) g
                (by rw [List.length_drop]; omega) (by rw [List.length_drop]; omega)]
        · rw [if_neg hc, if_neg hc]
          rw [ih rest g hf hg]

/-- Unescaping a string free of ampersands returns it unchanged. -/
theorem unescapeFuel_rawSafe (cs : List Char) (h : ∀ c ∈ cs, rawSafeChar c = true) :
    unescapeFuel cs.length cs = .ok cs := by
  induction cs with
  | nil => rfl
  | cons c rest ih =>
    show unescapeFuel (rest.length + 1) (c :: rest) = .ok (c :: rest)
    unfold unescapeFuel
    have hc : ¬ c = '&' := by
      have := h c (List.mem_cons_self c rest)
      unfold rawSafeChar at this
      simp at this
      exact this.2.2.2
    rw [if_neg hc, ih (fun x hx => h x (List.mem_cons_of_mem c hx))]

/-- Unescaping a raw-safe string returns it unchanged. -/
theorem unescapeStr_rawSafe (s : String) (h : rawSafe s = true) :
    unescapeStr s = .ok s := by
  unfold unescapeStr unescapeList
  rw [unescapeFuel_rawSafe s.data (by simpa [rawSafe, List.all_eq_true] using h)]

/-- One entity step of the unescaper: the entity body is read back and
decoding continues after the semicolon. -/
theorem unescapeFuel_entity_step (body rest : List Char) (d : Char) (f : Nat)
    (hd : decodeEntity body = some d) (hs : ∀ c ∈ body, c ≠ ';')
    (hf : rest.length ≤ f) :
    unescapeFuel (f + 1) ('&' :: (body ++ ';' :: rest))
      = match unescapeFuel rest.length rest with
        | .ok tail => .ok (d :: tail)
        | .error e => .error e := by
  conv_lhs => unfold unescapeFuel
  rw [if_pos rfl]
  have htw : (body ++ ';' :: rest).takeWhile (fun c => c ≠ ';') = body := by
    apply takeWhile_append_boundary
    · intro x hx
      simp [hs x hx]
    · simp
  rw [htw]
  dsimp only
  have hdrop : (body ++ ';' :: rest).drop body.length = ';' :: rest :=
    List.drop_left body (';' :: rest)
  have hdrop2 : (body ++ ';' :: rest).drop (body.length + 1) = rest := by
    rw [List.drop_append 1]
    rfl
  rw [hdrop, hdrop2, hd]
  simp only [List.isEmpty_cons, Bool.false_eq_true, if_false]
  rw [unescapeFuel_congr f rest rest.length hf le_rfl]

/-- Unescaping inverts escaping (with any sufficient fuel). -/
theorem unescapeFuel_escape (cs : List Char) : ∀ f : Nat,
    (escapeList cs).length ≤ f → unescapeFuel f (escapeList cs) = .ok cs := by
  induction cs with
  | nil =>
    intro f _
    cases f <;> rfl
  | cons c rest ih =>
    intro f hf
    have hrec : ∀ g : Nat, (escapeList rest).length ≤ g →
        unescapeFuel g (escapeList rest) = .ok rest := ih
    show unescapeFuel f (escapeList (c :: rest)) = .ok (c :: rest)
    unfold escapeList
    by_cases h1 : c = '<'
    · subst h1
      unfold escapeList at hf
      rw [show escapeChar '<' = '&' :: (['l', 't'] ++ [';']) from rfl] at hf ⊢
      rw [List.cons_append, List.append_assoc, List.singleton_append] at hf ⊢
      simp only [List.length_cons, List.length_append] at hf
      cases f with
      | zero => omega
      | succ f =>
        rw [unescapeFuel_entity_step ['l', 't'] (escapeList rest) '<' f rfl
          (by decide) (by simp at hf; omega)]
        rw [hrec (escapeList rest).length le_rfl]
    · by_cases h2 : c = '>'
      · subst h2
        unfold escapeList at hf
        rw [show escapeChar '>' = '&' :: (['g', 't'] ++ [';']) from rfl] at hf ⊢
        rw [List.cons_append, List.append_assoc, List.singleton_append] at hf ⊢
        simp only [List.length_cons, List.length_append] at hf
        cases f with
        | zero => omega
        | succ f =>
          rw [unescapeFuel_entity_step ['g', 't'] (escapeList rest) '>' f rfl
            (by decide) (by simp at hf; omega)]
          rw [hrec (escapeList rest).length le_rfl]
      · by_cases h3 : c = '&'
        · subst h3
          unfold escapeList at hf
          rw [show escapeChar '&' = '&' :: (['a', 'm', 'p'] ++ [';']) from rfl] at hf ⊢
          rw [List.cons_append, List.append_assoc, List.singleton_append] at hf ⊢
          simp only [List.length_cons, List.length_append] at hf
          cases f with
          | zero => omega
          | succ f =>
            rw [unescapeFuel_entity_step ['a', 'm', 'p'] (escapeList rest) '&' f rfl
              (by decide) (by simp at hf; omega)]
            rw [hrec (escapeList rest).length le_rfl]
        · by_cases h4 : c = '"'
          · subst h4
            unfold escapeList at hf
            rw [show escapeChar '"' = '&' :: (['q', 'u', 'o', 't'] ++ [';']) from rfl] at hf ⊢
            rw [List.cons_append, List.append_assoc, List.singleton_append] at hf ⊢
            simp only [List.length_cons, List.length_append] at hf
            cases f with
            | zero => omega
            | succ f =>
              rw [unescapeFuel_entity_step ['q', 'u', 'o', 't'] (escapeList rest) '"' f rfl
                (by decide) (by simp at hf; omega)]
              rw [hrec (escapeList rest).length le_rfl]
          · by_cases h5 : c = aposChar
            · subst h5
              unfold escapeList at hf
              rw [show escapeChar aposChar = '&' :: (['a', 'p', 'o', 's'] ++ [';']) from rfl]
                at hf ⊢
              rw [List.cons_append, List.append_assoc, List.singleton_append] at hf ⊢
              simp only [List.length_cons, List.length_append] at hf
              cases f with
              | zero => omega
              | succ f =>
                rw [unescapeFuel_entity_step ['a', 'p', 'o', 's'] (escapeList rest) aposChar
                  f rfl (by decide) (by simp at hf; omega)]
                rw [hrec (escapeList rest).length le_rfl]
            · have hch : escapeChar c = [c] := by
                unfold escapeChar
                rw [if_neg h1, if_neg h2, if_neg h3, if_neg h4, if_neg h5]
              unfold escapeList at hf
              rw [hch] at hf ⊢
              rw [List.singleton_append] at hf ⊢
              simp only [List.length_cons] at hf
              cases f with
              | zero => omega
              | succ f =>
                show unescapeFuel (f + 1) (c :: escapeList rest) = .ok (c :: rest)
                unfold unescapeFuel
                rw [if_neg h3]
                rw [unescapeFuel_congr f (escapeList rest) (escapeList rest).length
                  (by omega) le_rfl]
                rw [hrec (escapeList rest).length le_rfl]

/-- decode_and_unescape_value inverts escape. -/
theorem unescapeStr_escape (s : String) : unescapeStr (escape s) = .ok s := by
  unfold unescapeStr unescapeList escape
  rw [unescapeFuel_escape s.data (String.mk (escapeList s.data)).data.length le_rfl]


/-! ## Round trip of the content-types part (C7): lexing lemmas -/

/-- Tokenizing does not depend on the fuel once it covers the input
length. -/
theorem tokenizeFuel_congr : ∀ (f : Nat) (cs : List Char) (g : Nat),
    cs.length ≤ f → cs.length ≤ g → tokenizeFuel f cs = tokenizeFuel g cs := by
  intro f
  induction f with
  | zero =>
    intro cs g hf _
    have hcs : cs = [] := List.length_eq_zero.mp (Nat.le_zero.mp hf)
    subst hcs
    cases g <;> rfl
  | succ f ih =>
    intro cs g hf hg
    cases cs with
    | nil => cases g <;> rfl
    | cons c rest =>
      cases g with
      | zero => simp at hg
      | succ g =>
        show tokenizeFuel (f + 1) (c :: rest) = tokenizeFuel (g + 1) (c :: rest)
        unfold tokenizeFuel
        simp only [List.length_cons, Nat.succ_le_succ_iff] at hf hg
        by_cases hc : c = '<'
        · rw [if_pos hc, if_pos hc]
          by_cases h2 : rest.headD ' ' = '?'
          · rw [if_pos h2, if_pos h2]
            dsimp only
            by_cases h3 : ((rest.drop 1).takeWhile (fun d => d ≠ '>')).length
                = (rest.drop 1).length
            · rw [if_pos h3, if_pos h3]
            · rw [if_neg h3, if_neg h3]
              rw [ih ((rest.drop 1).drop
                  (((rest.drop 1).takeWhile (fun d => d ≠ '>')).length + 1)) g
                (by simp only [List.length_drop]; omega)
                (by simp only [List.length_drop]; omega)]
          · rw [if_neg h2, if_neg h2]
            by_cases h2b : rest.headD ' ' = '/'
            · rw [if_pos h2b, if_pos h2b]
              dsimp only
              by_cases h3 : ((rest.drop 1).takeWhile (fun d => d ≠ '>')).length
                  = (rest.drop 1).length
              · rw [if_pos h3, if_pos h3]
              · rw [if_neg h3, if_neg h3]
                rw [ih ((rest.drop 1).drop
                    (((rest.drop 1).takeWhile (fun d => d ≠ '>')).length + 1)) g
                  (by simp only [List.length_drop]; omega)
                  (by simp only [List.length_drop]; omega)]
            · rw [if_neg h2b, if_neg h2b]
              dsimp only
              by_cases h3 : (rest.takeWhile (fun d => d ≠ '>')).length = rest.length
              · rw [if_pos h3, if_pos h3]
              · rw [if_neg h3, if_neg h3]
                rw [ih (rest.drop ((rest.takeWhile (fun d => d ≠ '>')).length + 1)) g
                  (by simp only [List.length_drop]; omega)
                  (by simp only [List.length_drop]; omega)]
        · rw [if_neg hc, if_neg hc]
          dsimp only
          have htw : 1 ≤ ((c :: rest).takeWhile (fun d => d ≠ '<')).length := by
            rw [List.takeWhile_cons, if_pos (by simp [hc])]
            simp
          have htwle : ((c :: rest).takeWhile (fun d => d ≠ '<')).length
              ≤ rest.length + 1 := by
            have := takeWhile_length_le (fun d => d ≠ '<') (c :: rest)
            simpa using this
          rw [ih ((c :: rest).drop ((c :: rest).takeWhile (fun d => d ≠ '<')).length) g
            (by simp only [List.length_drop, List.length_cons]; omega)
            (by simp only [List.length_drop, List.length_cons]; omega)]

/-- Lexing a declaration segment produces a Decl event and continues after
the closing bracket. -/
theorem tokList_decl (body rest : List Char) (hb : ∀ c ∈ body, c ≠ '>') :
    tokList ('<' :: '?' :: (body ++ '>' :: rest)) = .decl :: tokList rest := by
  unfold tokList
  show tokenizeFuel (('?' :: (body ++ '>' :: rest)).length + 1) _ = _
  conv_lhs => unfold tokenizeFuel
  rw [if_pos rfl]
  have hhead : ('?' :: (body ++ '>' :: rest)).headD ' ' = '?' := rfl
  rw [if_pos hhead]
  dsimp only
  have hdrop1 : ('?' :: (body ++ '>' :: rest)).drop 1 = body ++ '>' :: rest := rfl
  rw [hdrop1]
  have htw : (body ++ '>' :: rest).takeWhile (fun d => d ≠ '>') = body := by
    apply takeWhile_append_boundary
    · intro x hx
      simp [hb x hx]
    · simp
  rw [htw]
  have hlen : ¬ body.length = (body ++ '>' :: rest).length := by
    simp only [List.length_append, List.length_cons]
    omega
  rw [if_neg hlen]
  have hdrop2 : (body ++ '>' :: rest).drop (body.length + 1) = rest := by
    rw [List.drop_append 1]
    rfl
  rw [hdrop2]
  rw [tokenizeFuel_congr ('?' :: (body ++ '>' :: rest)).length rest rest.length
    (by simp only [List.length_cons, List.length_append]; omega) le_rfl]

/-- Lexing an end-tag segment produces an End event and continues after the
closing bracket. -/
theorem tokList_endTag (name rest : List Char) (hn : ∀ c ∈ name, c ≠ '>') :
    tokList ('<' :: '/' :: (name ++ '>' :: rest))
      = .endTag (String.mk name) :: tokList rest := by
  unfold tokList
  show tokenizeFuel (('/' :: (name ++ '>' :: rest)).length + 1) _ = _
  conv_lhs => unfold tokenizeFuel
  rw [if_pos rfl]
  have hhead : ('/' :: (name ++ '>' :: rest)).headD ' ' = '/' := rfl
  rw [if_neg (by rw [hhead]; decide), if_pos hhead]
  dsimp only
  have hdrop1 : ('/' :: (name ++ '>' :: rest)).drop 1 = name ++ '>' :: rest := rfl
  rw [hdrop1]
  have htw : (name ++ '>' :: rest).takeWhile (fun d => d ≠ '>') = name := by
    apply takeWhile_append_boundary
    · intro x hx
      simp [hn x hx]
    · simp
  rw [htw]
  have hlen : ¬ name.length = (name ++ '>' :: rest).length := by
    simp only [List.length_append, List.length_cons]
    omega
  rw [if_neg hlen]
  have hdrop2 : (name ++ '>' :: rest).drop (name.length + 1) = rest := by
    rw [List.drop_append 1]
    rfl
  rw [hdrop2]
  rw [tokenizeFuel_congr ('/' :: (name ++ '>' :: rest)).length rest rest.length
    (by simp only [List.length_cons, List.length_append]; omega) le_rfl]

/-- Lexing an ordinary tag segment produces the classified tag event and
continues after the closing bracket. -/
theorem tokList_tag (c0 : Char) (inner2 rest : List Char)
    (h0 : c0 ≠ '?') (h0b : c0 ≠ '/') (h0c : c0 ≠ '>')
    (hin : ∀ c ∈ inner2, c ≠ '>') :
    tokList ('<' :: c0 :: (inner2 ++ '>' :: rest))
      = parseTagContent (c0 :: inner2) :: tokList rest := by
  unfold tokList
  show tokenizeFuel ((c0 :: (inner2 ++ '>' :: rest)).length + 1) _ = _
  conv_lhs => unfold tokenizeFuel
  rw [if_pos rfl]
  have hhead : (c0 :: (inner2 ++ '>' :: rest)).headD ' ' = c0 := rfl
  rw [if_neg (by rw [hhead]; exact h0), if_neg (by rw [hhead]; exact h0b)]
  dsimp only
  have htw : (c0 :: (inner2 ++ '>' :: rest)).takeWhile (fun d => d ≠ '>')
      = c0 :: inner2 := by
    rw [List.takeWhile_cons, if_pos (by simp [h0c])]
    rw [takeWhile_append_boundary _ inner2 '>' rest (fun x hx => by simp [hin x hx]) (by simp)]
  rw [htw]
  have hlen : ¬ (c0 :: inner2).length = (c0 :: (inner2 ++ '>' :: rest)).length := by
    simp only [List.length_cons, List.length_append]
    omega
  rw [if_neg hlen]
  have hdrop2 : (c0 :: (inner2 ++ '>' :: rest)).drop ((c0 :: inner2).length + 1) = rest := by
    show (c0 :: (inner2 ++ '>' :: rest)).drop (inner2.length + 1 + 1) = rest
    rw [List.drop_succ_cons]
    rw [List.drop_append 1]
    rfl
  rw [hdrop2]
  rw [tokenizeFuel_congr (c0 :: (inner2 ++ '>' :: rest)).length rest rest.length
    (by simp only [List.length_cons, List.length_append]; omega) le_rfl]

/-- Lexing the whitespace after the XML declaration produces one Text
event. -/
theorem tokList_crlf (rest : List Char) :
    tokList ('\r' :: '\n' :: '<' :: rest)
      = .text (String.mk ['\r', '\n']) :: tokList ('<' :: rest) := by
  unfold tokList
  show tokenizeFuel (('\n' :: '<' :: rest).length + 1) _ = _
  conv_lhs => unfold tokenizeFuel
  rw [if_neg (by decide)]
  dsimp only
  have htw : ('\r' :: '\n' :: '<' :: rest).takeWhile (fun d => d ≠ '<')
      = ['\r', '\n'] := by
    rw [List.takeWhile_cons, if_pos (by decide), List.takeWhile_cons, if_pos (by decide),
      List.takeWhile_cons, if_neg (by decide)]
  rw [htw]
  have hd : ('\r' :: '\n' :: '<' :: rest).drop (['\r', '\n'] : List Char).length
      = '<' :: rest := rfl
  rw [hd]
  rw [tokenizeFuel_congr ('\n' :: '<' :: rest).length ('<' :: rest) ('<' :: rest).length
    (by simp) le_rfl]


/-- A scan keeps the whole list when the predicate holds everywhere. -/
theorem takeWhile_all (p : Char → Bool) :
    ∀ l : List Char, (∀ x ∈ l, p x = true) → l.takeWhile p = l := by
  intro l
  induction l with
  | nil => intro h; rfl
  | cons a t ih =>
    intro h
    rw [List.takeWhile_cons, if_pos (h a (List.mem_cons_self a t)),
      ih (fun x hx => h x (List.mem_cons_of_mem a hx))]

/-- A serialized attribute ends in a double quote. -/
theorem attrChars_getLast (kv : String × String) :
    (attrChars kv).getLast? = some '"' := by
  have h : attrChars kv = (' ' :: (kv.1.data ++ '=' :: '"' :: kv.2.data)) ++ ['"'] := by
    simp [attrChars, List.append_assoc]
  rw [h, List.getLast?_append]
  rfl

/-- A nonempty serialized attribute list ends in a double quote. -/
theorem attrsChars_getLast : ∀ (kv : String × String) (l : List (String × String)),
    (attrsChars (kv :: l)).getLast? = some '"'
  | kv, [] => by
    show (attrChars kv ++ attrsChars []).getLast? = some '"'
    rw [show attrsChars ([] : List (String × String)) = [] from rfl, List.append_nil]
    exact attrChars_getLast kv
  | kv, kv2 :: l2 => by
    show (attrChars kv ++ attrsChars (kv2 :: l2)).getLast? = some '"'
    rw [List.getLast?_append, attrsChars_getLast kv2 l2]
    rfl

/-- Serialized attributes take at least one character each. -/
theorem attrsChars_length (attrs : List (String × String)) :
    attrs.length ≤ (attrsChars attrs).length := by
  induction attrs with
  | nil => simp [attrsChars]
  | cons kv l ih =>
    have h1 : 0 < (attrChars kv).length := by simp [attrChars]
    simp only [List.length_cons, attrsChars, List.length_append]
    omega

/-- Scanning the serialized characters of a safe attribute list recovers
exactly that list, for any fuel covering its length. -/
theorem parseAttrsFuel_chars : ∀ (attrs : List (String × String)) (fuel : Nat),
    attrs.length ≤ fuel → SafeAttrsChars attrs →
    parseAttrsFuel fuel (attrsChars attrs) = attrs := by
  intro attrs
  induction attrs with
  | nil =>
    intro fuel _ _
    cases fuel <;> rfl
  | cons kv rest ih =>
    intro fuel hf hsafe
    obtain ⟨hk, hkc, hvc⟩ := hsafe kv (List.mem_cons_self kv rest)
    have hrest : SafeAttrsChars rest := fun x hx => hsafe x (List.mem_cons_of_mem kv hx)
    cases fuel with
    | zero => simp at hf
    | succ f =>
      cases hkd : kv.1.data with
      | nil => exact absurd hkd hk
      | cons k0 ktail =>
        have hk0 := hkc k0 (by rw [hkd]; exact List.mem_cons_self _ _)
        have hshape : attrsChars (kv :: rest)
            = ' ' :: k0 :: (ktail ++ ('=' :: '"' :: (kv.2.data ++ ('"' :: attrsChars rest)))) := by
          rw [show attrsChars (kv :: rest) = attrChars kv ++ attrsChars rest from rfl]
          rw [show attrChars kv
            = ' ' :: (kv.1.data ++ '=' :: '"' :: kv.2.data ++ ['"']) from rfl, hkd]
          simp [List.append_assoc]
        rw [hshape]
        conv_lhs => unfold parseAttrsFuel
        dsimp only
        rw [List.dropWhile_cons, if_pos (by decide), List.dropWhile_cons, if_neg hk0.1]
        dsimp only
        rw [if_neg hk0.2.2.1]
        have htk : (k0 :: (ktail ++ ('=' :: '"' :: (kv.2.data ++ ('"' :: attrsChars rest))))).takeWhile
            (fun d => ¬ (d = '=' ∨ isXmlSpace d)) = k0 :: ktail := by
          rw [← List.cons_append]
          apply takeWhile_append_boundary
          · intro x hx
            have hx2 := hkc x (by rw [hkd]; exact hx)
            simp only [decide_eq_true_eq, not_or]
            exact ⟨hx2.2.1, hx2.1⟩
          · decide
        rw [htk]
        have hdr : (k0 :: (ktail ++ ('=' :: '"' :: (kv.2.data ++ ('"' :: attrsChars rest))))).drop
            (k0 :: ktail).length = '=' :: '"' :: (kv.2.data ++ ('"' :: attrsChars rest)) := by
          rw [← List.cons_append, List.drop_left]
        rw [hdr]
        rw [if_pos (⟨rfl, rfl⟩ :
          ('=' :: '"' :: (kv.2.data ++ ('"' :: attrsChars rest))).headD ' ' = '='
            ∧ (('=' :: '"' :: (kv.2.data ++ ('"' :: attrsChars rest))).drop 1).headD ' ' = '"')]
        have hd2 : ('=' :: '"' :: (kv.2.data ++ ('"' :: attrsChars rest))).drop 2
            = kv.2.data ++ ('"' :: attrsChars rest) := rfl
        rw [hd2]
        have htv : (kv.2.data ++ ('"' :: attrsChars rest)).takeWhile
            (fun d => d ≠ '"') = kv.2.data := by
          apply takeWhile_append_boundary
          · intro x hx
            simp [(hvc x hx).1]
          · decide
        rw [htv]
        have hdr2 : (kv.2.data ++ ('"' :: attrsChars rest)).drop
            (kv.2.data.length + 1) = attrsChars rest := by
          rw [List.drop_append 1]
          rfl
        rw [hdr2]
        rw [ih f (by simp only [List.length_cons] at hf; omega) hrest]
        rw [← hkd]

/-- The name scan of serialized tag content stops exactly at the attribute
block. -/
theorem nameChars_of_append (name : List Char) (attrs : List (String × String))
    (hnc : ∀ c ∈ name, ¬ isXmlSpace c = true) :
    (name ++ attrsChars attrs).takeWhile (fun c => ¬ isXmlSpace c) = name := by
  cases attrs with
  | nil =>
    rw [show attrsChars ([] : List (String × String)) = [] from rfl, List.append_nil]
    apply takeWhile_all
    intro x hx
    simp [hnc x hx]
  | cons kv l =>
    rw [show attrsChars (kv :: l)
      = ' ' :: ((kv.1.data ++ '=' :: '"' :: kv.2.data ++ ['"']) ++ attrsChars l) from rfl]
    apply takeWhile_append_boundary
    · intro x hx
      simp [hnc x hx]
    · decide

/-- Tag content made of a name followed by safe serialized attributes
classifies as a Start event carrying exactly those attributes. -/
theorem parseTagContent_start (name : List Char) (attrs : List (String × String))
    (hnc : ∀ c ∈ name, ¬ isXmlSpace c = true)
    (hlast : ¬ (name ++ attrsChars attrs).getLast? = some '/')
    (hsafe : SafeAttrsChars attrs) :
    parseTagContent (name ++ attrsChars attrs) = .start ⟨String.mk name, attrs⟩ := by
  unfold parseTagContent
  dsimp only
  rw [if_neg hlast, if_neg hlast]
  rw [nameChars_of_append name attrs hnc]
  rw [List.drop_left]
  rw [parseAttrsFuel_chars attrs (name ++ attrsChars attrs).length
    (by rw [List.length_append]; have := attrsChars_length attrs; omega) hsafe]

/-- Tag content ending in a slash classifies as an Empty event carrying the
scanned attributes. -/
theorem parseTagContent_empty (name : List Char) (attrs : List (String × String))
    (hnc : ∀ c ∈ name, ¬ isXmlSpace c = true)
    (hsafe : SafeAttrsChars attrs) :
    parseTagContent ((name ++ attrsChars attrs) ++ ['/'])
      = .empty ⟨String.mk name, attrs⟩ := by
  unfold parseTagContent
  dsimp only
  have hlast : ((name ++ attrsChars attrs) ++ ['/']).getLast? = some '/' := by
    rw [List.getLast?_append]
    rfl
  rw [if_pos hlast, if_pos hlast, List.dropLast_concat]
  rw [nameChars_of_append name attrs hnc]
  rw [List.drop_left]
  rw [parseAttrsFuel_chars attrs (name ++ attrsChars attrs).length
    (by rw [List.length_append]; have := attrsChars_length attrs; omega) hsafe]

/-! ## Round trip (C7): the serialized character stream -/

/-- Serialized attribute lists concatenate over list append. -/
theorem attrsChars_append : ∀ (l1 l2 : List (String × String)),
    attrsChars (l1 ++ l2) = attrsChars l1 ++ attrsChars l2
  | [], l2 => by simp [attrsChars]
  | kv :: t, l2 => by
    show attrChars kv ++ attrsChars (t ++ l2) = (attrChars kv ++ attrsChars t) ++ attrsChars l2
    rw [attrsChars_append t l2, List.append_assoc]

/-- The characters a serialized Default child appends. -/
theorem opcDefault_writeXml_data (d : OpcDefault) (b : Bool) (w : String) :
    (OpcDefault.writeXml d b w).data
      = w.data ++ ('<' :: ((if b then "w:Default" else "Default").data
          ++ (attrsChars (opcDefaultAttrs d) ++ ['/', '>']))) := by
  have hsp : (" " : String).data = [' '] := rfl
  have heqq : ("=\"" : String).data = ['=', '"'] := rfl
  have hq : ("\"" : String).data = ['"'] := rfl
  have hse : ("/>" : String).data = ['/', '>'] := rfl
  have hd1 : ("<w:Default" : String).data = '<' :: ("w:Default" : String).data := rfl
  have hd2 : ("<Default" : String).data = '<' :: ("Default" : String).data := rfl
  unfold OpcDefault.writeXml
  cases b
  · rw [if_neg (by decide), if_neg (by decide)]
    simp only [String.data_append, hsp, heqq, hq, hse, hd2, escape,
      opcDefaultAttrs, attrsChars, attrChars]
    simp [List.append_assoc]
  · rw [if_pos rfl, if_pos rfl]
    simp only [String.data_append, hsp, heqq, hq, hse, hd1, escape,
      opcDefaultAttrs, attrsChars, attrChars]
    simp [List.append_assoc]

/-- The characters a serialized Override child appends. -/
theorem opcOverride_writeXml_data (o : OpcOverride) (b : Bool) (w : String) :
    (OpcOverride.writeXml o b w).data
      = w.data ++ ('<' :: ((if b then "w:Override" else "Override").data
          ++ (attrsChars (opcOverrideAttrs o) ++ ['/', '>']))) := by
  have hct : (" ContentType=\"" : String).data
      = ' ' :: (("ContentType" : String).data ++ ['=', '"']) := rfl
  have hpn : (" PartName=\"" : String).data
      = ' ' :: (("PartName" : String).data ++ ['=', '"']) := rfl
  have hq : ("\"" : String).data = ['"'] := rfl
  have hse : ("/>" : String).data = ['/', '>'] := rfl
  have hd1 : ("<w:Override" : String).data = '<' :: ("w:Override" : String).data := rfl
  have hd2 : ("<Override" : String).data = '<' :: ("Override" : String).data := rfl
  unfold OpcOverride.writeXml
  cases b
  · rw [if_neg (by decide), if_neg (by decide)]
    simp only [String.data_append, hct, hpn, hq, hse, hd2, escape,
      opcOverrideAttrs, attrsChars, attrChars]
    simp [List.append_assoc]
  · rw [if_pos rfl, if_pos rfl]
    simp only [String.data_append, hct, hpn, hq, hse, hd1, escape,
      opcOverrideAttrs, attrsChars, attrChars]
    simp [List.append_assoc]

/-- The characters the child fold of Types::write_xml appends. -/
theorem typesChildren_foldl_data (b : Bool) : ∀ (cs : List TypesChildChoice) (w : String),
    (cs.foldl (writeTypesChild b) w).data = w.data ++ typesChildrenChars b cs := by
  intro cs
  induction cs with
  | nil => intro w; simp [typesChildrenChars]
  | cons c t ih =>
    intro w
    rw [List.foldl_cons, ih]
    cases c with
    | defaultChild d =>
      rw [show writeTypesChild b w (.defaultChild d) = OpcDefault.writeXml d b w from rfl]
      rw [opcDefault_writeXml_data]
      show _ = w.data ++ typesChildrenChars b (.defaultChild d :: t)
      rw [show typesChildrenChars b (.defaultChild d :: t)
        = '<' :: (if b then "w:Default" else "Default").data
            ++ attrsChars (opcDefaultAttrs d) ++ '/' :: '>' :: typesChildrenChars b t from rfl]
      simp [List.append_assoc]
    | overrideChild o =>
      rw [show writeTypesChild b w (.overrideChild o) = OpcOverride.writeXml o b w from rfl]
      rw [opcOverride_writeXml_data]
      show _ = w.data ++ typesChildrenChars b (.overrideChild o :: t)
      rw [show typesChildrenChars b (.overrideChild o :: t)
        = '<' :: (if b then "w:Override" else "Override").data
            ++ attrsChars (opcOverrideAttrs o) ++ '/' :: '>' :: typesChildrenChars b t from rfl]
      simp [List.append_assoc]
    | noneChild =>
      rw [show writeTypesChild b w .noneChild = w from rfl]
      rw [show typesChildrenChars b (.noneChild :: t) = typesChildrenChars b t from rfl]

/-- The characters the xmlns_map fold of Types::write_xml appends. -/
theorem xmlnsMapFoldl_data : ∀ (l : List (String × String)) (w : String),
    (l.foldl (fun acc kv => acc ++ " xmlns:" ++ kv.1 ++ "=\"" ++ kv.2 ++ "\"") w).data
      = w.data ++ attrsChars (l.map (fun kv => ("xmlns:" ++ kv.1, kv.2))) := by
  intro l
  induction l with
  | nil => intro w; simp [attrsChars]
  | cons kv t ih =>
    intro w
    have hx2 : (" xmlns:" : String).data = ' ' :: ("xmlns:" : String).data := rfl
    have heqq : ("=\"" : String).data = ['=', '"'] := rfl
    have hq : ("\"" : String).data = ['"'] := rfl
    rw [List.foldl_cons, ih]
    simp only [List.map_cons, attrsChars, attrChars, String.data_append, hx2, heqq, hq]
    simp [List.append_assoc]

/-- Types::write_xml character for character: the declaration, the
whitespace, the root start tag carrying exactly the root attribute pairs,
the serialized children, and the end tag. -/
theorem typesWriteXml_data (x : Types) (b : Bool) :
    (x.writeXml b).data
      = '<' :: '?' :: (("xml version=\"1.0\" encoding=\"UTF-8\"?" : String).data
          ++ '>' :: '\r' :: '\n' :: '<'
          :: ((if b then "w:Types" else "Types").data ++ attrsChars (typesRootAttrs x)
            ++ '>' :: (typesChildrenChars b x.children
              ++ '<' :: '/' :: ((if b then "w:Types" else "Types").data ++ '>' :: [])))) := by
  have hheader : ("<?xml version=\"1.0\" encoding=\"UTF-8\"?>\r\n" : String).data
      = '<' :: '?' :: (("xml version=\"1.0\" encoding=\"UTF-8\"?" : String).data
          ++ '>' :: '\r' :: '\n' :: []) := rfl
  have hlt : ("<" : String).data = ['<'] := rfl
  have hgt : (">" : String).data = ['>'] := rfl
  have hxm : (" xmlns=\"" : String).data = ' ' :: (("xmlns" : String).data ++ ['=', '"']) := rfl
  have hmcl : (" mc:Ignorable=\"" : String).data
      = ' ' :: (("mc:Ignorable" : String).data ++ ['=', '"']) := rfl
  have hq : ("\"" : String).data = ['"'] := rfl
  have hend : ((if b then "</w:Types>" else "</Types>") : String).data
      = '<' :: '/' :: ((if b then "w:Types" else "Types").data ++ '>' :: []) := by
    cases b <;> rfl
  obtain ⟨xm, mp, mc, cs⟩ := x
  unfold Types.writeXml
  dsimp only
  cases xm with
  | none =>
    cases mc with
    | none =>
      simp only [typesRootAttrs]
      rw [String.data_append, typesChildren_foldl_data, String.data_append,
        xmlnsMapFoldl_data]
      simp only [String.data_append, hheader, hlt, hgt, hend]
      rw [show attrsChars (([] : List (String × String))
          ++ mp.map (fun kv => ("xmlns:" ++ kv.1, kv.2)) ++ [])
        = attrsChars (mp.map (fun kv => ("xmlns:" ++ kv.1, kv.2))) from by simp]
      simp [List.append_assoc]
    | some u =>
      simp only [typesRootAttrs]
      rw [String.data_append, typesChildren_foldl_data]
      simp only [String.data_append, hheader, hlt, hgt, hend, hmcl, hq]
      rw [xmlnsMapFoldl_data]
      rw [show attrsChars (([] : List (String × String))
          ++ mp.map (fun kv => ("xmlns:" ++ kv.1, kv.2)) ++ [("mc:Ignorable", u)])
        = attrsChars (mp.map (fun kv => ("xmlns:" ++ kv.1, kv.2)))
            ++ attrChars ("mc:Ignorable", u) from by
        rw [List.nil_append, attrsChars_append]
        simp [attrsChars]]
      simp only [String.data_append, attrChars]
      simp [List.append_assoc]
  | some v =>
    cases mc with
    | none =>
      simp only [typesRootAttrs]
      rw [String.data_append, typesChildren_foldl_data, String.data_append,
        xmlnsMapFoldl_data]
      simp only [String.data_append, hheader, hlt, hgt, hend, hxm, hq]
      rw [show attrsChars ([("xmlns", v)]
          ++ mp.map (fun kv => ("xmlns:" ++ kv.1, kv.2)) ++ [])
        = attrChars ("xmlns", v)
            ++ attrsChars (mp.map (fun kv => ("xmlns:" ++ kv.1, kv.2))) from by
        rw [List.append_nil, attrsChars_append]
        simp [attrsChars]]
      simp only [attrChars]
      simp [List.append_assoc]
    | some u =>
      simp only [typesRootAttrs]
      rw [String.data_append, typesChildren_foldl_data]
      simp only [String.data_append, hheader, hlt, hgt, hend, hxm, hmcl, hq]
      rw [xmlnsMapFoldl_data]
      rw [show attrsChars ([("xmlns", v)]
          ++ mp.map (fun kv => ("xmlns:" ++ kv.1, kv.2)) ++ [("mc:Ignorable", u)])
        = attrChars ("xmlns", v)
            ++ (attrsChars (mp.map (fun kv => ("xmlns:" ++ kv.1, kv.2)))
              ++ attrChars ("mc:Ignorable", u)) from by
        rw [attrsChars_append, attrsChars_append]
        simp [attrsChars, List.append_assoc]]
      simp only [String.data_append, attrChars]
      simp [List.append_assoc]

/-- No closing angle bracket occurs among the characters of a safe
serialized attribute list. -/
theorem attrsChars_no_gt : ∀ (attrs : List (String × String)), SafeAttrsChars attrs →
    ∀ c ∈ attrsChars attrs, c ≠ '>' := by
  intro attrs
  induction attrs with
  | nil =>
    intro _ c hc
    simp [attrsChars] at hc
  | cons kv t ih =>
    intro hs c hc
    obtain ⟨hk1, hk2, hv⟩ := hs kv (List.mem_cons_self kv t)
    rw [show attrsChars (kv :: t) = attrChars kv ++ attrsChars t from rfl] at hc
    rcases List.mem_append.mp hc with h | h
    · simp only [attrChars, List.mem_cons, List.mem_append, List.mem_singleton] at h
      rcases h with rfl | h | rfl | h
      · decide
      · rcases h with h | rfl | rfl | h
        · exact (hk2 c h).2.2.2.1
        · decide
        · decide
        · exact (hv c h).2
      · decide
      · simp at h
    · exact ih (fun y hy => hs y (List.mem_cons_of_mem kv hy)) c h

/-- The key-side safety facts of the fixed attribute keys, shared by the
concrete-key safety lemmas below. -/
theorem fixedKeyChars_safe (k : String)
    (hk : ∀ c ∈ k.data, ¬ isXmlSpace c = true ∧ c ≠ '=' ∧ c ≠ '/' ∧ c ≠ '>' ∧ c ≠ '"')
    (hne : k.data ≠ []) (v : String) :
    (k, escape v).1.data ≠ []
      ∧ (∀ c ∈ (k, escape v).1.data, ¬ isXmlSpace c = true ∧ c ≠ '=' ∧ c ≠ '/' ∧ c ≠ '>' ∧ c ≠ '"')
      ∧ ∀ c ∈ (k, escape v).2.data, c ≠ '"' ∧ c ≠ '>' := by
  refine ⟨hne, hk, ?_⟩
  intro c hc
  exact escapeList_safe v.data c (by simpa [escape] using hc)

/-- The serialized Default attributes are safe (the keys are fixed
identifiers and the values are escaped). -/
theorem opcDefaultAttrs_safe (d : OpcDefault) : SafeAttrsChars (opcDefaultAttrs d) := by
  intro kv hkv
  simp only [opcDefaultAttrs, List.mem_cons, List.mem_singleton, List.not_mem_nil,
    or_false] at hkv
  rcases hkv with rfl | rfl
  · exact fixedKeyChars_safe "Extension" (by decide) (by decide) d.extension
  · exact fixedKeyChars_safe "ContentType" (by decide) (by decide) d.contentType

/-- The serialized Override attributes are safe. -/
theorem opcOverrideAttrs_safe (o : OpcOverride) : SafeAttrsChars (opcOverrideAttrs o) := by
  intro kv hkv
  simp only [opcOverrideAttrs, List.mem_cons, List.mem_singleton, List.not_mem_nil,
    or_false] at hkv
  rcases hkv with rfl | rfl
  · exact fixedKeyChars_safe "ContentType" (by decide) (by decide) o.contentType
  · exact fixedKeyChars_safe "PartName" (by decide) (by decide) o.partName

/-- The key-side safety facts of a fixed key paired with a raw-safe
value. -/
theorem fixedKeyRaw_safe (k : String)
    (hk : ∀ c ∈ k.data, ¬ isXmlSpace c = true ∧ c ≠ '=' ∧ c ≠ '/' ∧ c ≠ '>' ∧ c ≠ '"')
    (hne : k.data ≠ []) (v : String) (hv : rawSafe v = true) :
    (k, v).1.data ≠ []
      ∧ (∀ c ∈ (k, v).1.data, ¬ isXmlSpace c = true ∧ c ≠ '=' ∧ c ≠ '/' ∧ c ≠ '>' ∧ c ≠ '"')
      ∧ ∀ c ∈ (k, v).2.data, c ≠ '"' ∧ c ≠ '>' := by
  refine ⟨hne, hk, ?_⟩
  intro c hc
  simp only [rawSafe, List.all_eq_true] at hv
  have hrc := hv c (by simpa using hc)
  simp only [rawSafeChar, decide_eq_true_eq, not_or] at hrc
  exact ⟨hrc.2.2.1, hrc.2.1⟩

/-- The root attributes of a safe Types value are safe. -/
theorem typesRootAttrs_safe (x : Types) (h : TypesSafe x) :
    SafeAttrsChars (typesRootAttrs x) := by
  obtain ⟨h1, h2, h3, h4, h5⟩ := h
  intro kv hkv
  simp only [typesRootAttrs, List.mem_append, List.mem_map] at hkv
  rcases hkv with (hkv | ⟨a, ha, rfl⟩) | hkv
  · cases hx : x.xmlns with
    | none => rw [hx] at hkv; simp at hkv
    | some v =>
      rw [hx] at hkv
      simp only [List.mem_singleton] at hkv
      subst hkv
      exact fixedKeyRaw_safe "xmlns" (by decide) (by decide) v (h1 v hx)
  · obtain ⟨hks, hvs⟩ := h3 a ha
    simp only [keySafe, List.all_eq_true] at hks
    simp only [rawSafe, List.all_eq_true] at hvs
    refine ⟨?_, ?_, ?_⟩
    · show ("xmlns:" ++ a.1).data ≠ []
      rw [String.data_append]
      simp [show ("xmlns:" : String).data = ['x', 'm', 'l', 'n', 's', ':'] from rfl]
    · intro c hc
      rw [show ("xmlns:" ++ a.1, a.2).1.data = ['x', 'm', 'l', 'n', 's', ':'] ++ a.1.data from
        String.data_append "xmlns:" a.1] at hc
      rcases List.mem_append.mp hc with h | h
      · have h6 : c = 'x' ∨ c = 'm' ∨ c = 'l' ∨ c = 'n' ∨ c = 's' ∨ c = ':' := by
          simpa using h
        rcases h6 with rfl | rfl | rfl | rfl | rfl | rfl <;>
          exact ⟨by decide, by decide, by decide, by decide, by decide⟩
      · have hkc := hks c h
        simp only [keySafeChar, rawSafeChar, Bool.and_eq_true, decide_eq_true_eq,
          not_or] at hkc
        obtain ⟨⟨⟨⟨hlt2, hgt2, hq2, hamp2⟩, hsp2⟩, heq2⟩, hsl2⟩ := hkc
        exact ⟨hsp2, heq2, hsl2, hgt2, hq2⟩
    · intro c hc
      have hrc := hvs c (by simpa using hc)
      simp only [rawSafeChar, decide_eq_true_eq, not_or] at hrc
      exact ⟨hrc.2.2.1, hrc.2.1⟩
  · cases hm : x.mcIgnorable with
    | none => rw [hm] at hkv; simp at hkv
    | some v =>
      rw [hm] at hkv
      simp only [List.mem_singleton] at hkv
      subst hkv
      exact fixedKeyRaw_safe "mc:Ignorable" (by decide) (by decide) v (h2 v hm)

/-- A name ending the serialized attribute block never ends in a slash. -/
theorem name_attrs_getLast_ne (name : List Char) (attrs : List (String × String))
    (hn : ¬ name.getLast? = some '/') :
    ¬ (name ++ attrsChars attrs).getLast? = some '/' := by
  cases attrs with
  | nil =>
    rw [show attrsChars ([] : List (String × String)) = [] from rfl, List.append_nil]
    exact hn
  | cons kv l =>
    rw [List.getLast?_append, attrsChars_getLast kv l]
    show ¬ (some '"' : Option Char) = some '/'
    decide

/-- Lexing one serialized self-closing tag with safe attributes yields one
Empty event and continues behind it. -/
theorem tokList_emptyTag_chunk (tagStr : String) (c0 : Char) (tagTail : List Char)
    (htag : tagStr.data = c0 :: tagTail)
    (h0 : c0 ≠ '?') (h0b : c0 ≠ '/') (h0c : c0 ≠ '>')
    (htail : ∀ c ∈ tagTail, c ≠ '>')
    (hnc : ∀ c ∈ tagStr.data, ¬ isXmlSpace c = true)
    (attrs : List (String × String)) (hsafe : SafeAttrsChars attrs) (rest : List Char) :
    tokList ('<' :: (tagStr.data ++ (attrsChars attrs ++ '/' :: '>' :: rest)))
      = .empty ⟨tagStr, attrs⟩ :: tokList rest := by
  have hsh : '<' :: (tagStr.data ++ (attrsChars attrs ++ '/' :: '>' :: rest))
      = '<' :: c0 :: (((tagTail ++ attrsChars attrs) ++ ['/']) ++ '>' :: rest) := by
    rw [htag]
    simp [List.append_assoc]
  rw [hsh]
  rw [tokList_tag c0 ((tagTail ++ attrsChars attrs) ++ ['/']) rest h0 h0b h0c (by
    intro cch hcch
    rcases List.mem_append.mp hcch with hm | hm
    · rcases List.mem_append.mp hm with hm2 | hm2
      · exact htail cch hm2
      · exact attrsChars_no_gt attrs hsafe cch hm2
    · simp only [List.mem_singleton] at hm
      subst hm
      decide)]
  have hsh2 : c0 :: ((tagTail ++ attrsChars attrs) ++ ['/'])
      = (tagStr.data ++ attrsChars attrs) ++ ['/'] := by
    rw [htag]
    simp [List.append_assoc]
  rw [hsh2, parseTagContent_empty tagStr.data attrs hnc hsafe]

/-- Lexing the serialized children of a Types value yields exactly their
Empty events and continues with the remaining input. -/
theorem tokList_typesChildren (b : Bool) :
    ∀ (cs : List TypesChildChoice) (rest : List Char),
    tokList (typesChildrenChars b cs ++ rest) = typesChildEvents cs b ++ tokList rest := by
  cases b with
  | false =>
    intro cs
    induction cs with
    | nil =>
      intro rest
      rw [show typesChildrenChars false [] = [] from rfl, List.nil_append,
        show typesChildEvents [] false = [] from rfl, List.nil_append]
    | cons c t ih =>
      intro rest
      cases c with
      | noneChild =>
        rw [show typesChildrenChars false (.noneChild :: t) = typesChildrenChars false t from rfl,
          ih, show typesChildEvents (.noneChild :: t) false = typesChildEvents t false from rfl]
      | defaultChild d =>
        rw [show typesChildrenChars false (.defaultChild d :: t) ++ rest
            = '<' :: (("Default" : String).data ++ (attrsChars (opcDefaultAttrs d)
                ++ '/' :: '>' :: (typesChildrenChars false t ++ rest))) from by
          rw [show typesChildrenChars false (.defaultChild d :: t)
              = '<' :: ("Default" : String).data ++ attrsChars (opcDefaultAttrs d)
                ++ '/' :: '>' :: typesChildrenChars false t from rfl]
          simp [List.append_assoc]]
        rw [tokList_emptyTag_chunk "Default" 'D' ['e', 'f', 'a', 'u', 'l', 't'] rfl
          (by decide) (by decide) (by decide) (by decide) (by decide)
          (opcDefaultAttrs d) (opcDefaultAttrs_safe d) (typesChildrenChars false t ++ rest)]
        rw [ih]
        rw [show typesChildEvents (.defaultChild d :: t) false
          = .empty ⟨"Default", opcDefaultAttrs d⟩ :: typesChildEvents t false from rfl,
          List.cons_append]
      | overrideChild o =>
        rw [show typesChildrenChars false (.overrideChild o :: t) ++ rest
            = '<' :: (("Override" : String).data ++ (attrsChars (opcOverrideAttrs o)
                ++ '/' :: '>' :: (typesChildrenChars false t ++ rest))) from by
          rw [show typesChildrenChars false (.overrideChild o :: t)
              = '<' :: ("Override" : String).data ++ attrsChars (opcOverrideAttrs o)
                ++ '/' :: '>' :: typesChildrenChars false t from rfl]
          simp [List.append_assoc]]
        rw [tokList_emptyTag_chunk "Override" 'O' ['v', 'e', 'r', 'r', 'i', 'd', 'e'] rfl
          (by decide) (by decide) (by decide) (by decide) (by decide)
          (opcOverrideAttrs o) (opcOverrideAttrs_safe o) (typesChildrenChars false t ++ rest)]
        rw [ih]
        rw [show typesChildEvents (.overrideChild o :: t) false
          = .empty ⟨"Override", opcOverrideAttrs o⟩ :: typesChildEvents t false from rfl,
          List.cons_append]
  | true =>
    intro cs
    induction cs with
    | nil =>
      intro rest
      rw [show typesChildrenChars true [] = [] from rfl, List.nil_append,
        show typesChildEvents [] true = [] from rfl, List.nil_append]
    | cons c t ih =>
      intro rest
      cases c with
      | noneChild =>
        rw [show typesChildrenChars true (.noneChild :: t) = typesChildrenChars true t from rfl,
          ih, show typesChildEvents (.noneChild :: t) true = typesChildEvents t true from rfl]
      | defaultChild d =>
        rw [show typesChildrenChars true (.defaultChild d :: t) ++ rest
            = '<' :: (("w:Default" : String).data ++ (attrsChars (opcDefaultAttrs d)
                ++ '/' :: '>' :: (typesChildrenChars true t ++ rest))) from by
          rw [show typesChildrenChars true (.defaultChild d :: t)
              = '<' :: ("w:Default" : String).data ++ attrsChars (opcDefaultAttrs d)
                ++ '/' :: '>' :: typesChildrenChars true t from rfl]
          simp [List.append_assoc]]
        rw [tokList_emptyTag_chunk "w:Default" 'w' [':', 'D', 'e', 'f', 'a', 'u', 'l', 't'] rfl
          (by decide) (by decide) (by decide) (by decide) (by decide)
          (opcDefaultAttrs d) (opcDefaultAttrs_safe d) (typesChildrenChars true t ++ rest)]
        rw [ih]
        rw [show typesChildEvents (.defaultChild d :: t) true
          = .empty ⟨"w:Default", opcDefaultAttrs d⟩ :: typesChildEvents t true from rfl,
          List.cons_append]
      | overrideChild o =>
        rw [show typesChildrenChars true (.overrideChild o :: t) ++ rest
            = '<' :: (("w:Override" : String).data ++ (attrsChars (opcOverrideAttrs o)
                ++ '/' :: '>' :: (typesChildrenChars true t ++ rest))) from by
          rw [show typesChildrenChars true (.overrideChild o :: t)
              = '<' :: ("w:Override" : String).data ++ attrsChars (opcOverrideAttrs o)
                ++ '/' :: '>' :: typesChildrenChars true t from rfl]
          simp [List.append_assoc]]
        rw [tokList_emptyTag_chunk "w:Override" 'w' [':', 'O', 'v', 'e', 'r', 'r', 'i', 'd', 'e'] rfl
          (by decide) (by decide) (by decide) (by decide) (by decide)
          (opcOverrideAttrs o) (opcOverrideAttrs_safe o) (typesChildrenChars true t ++ rest)]
        rw [ih]
        rw [show typesChildEvents (.overrideChild o :: t) true
          = .empty ⟨"w:Override", opcOverrideAttrs o⟩ :: typesChildEvents t true from rfl,
          List.cons_append]

/-- Lexing one serialized start tag with safe attributes yields one Start
event and continues behind it. -/
theorem tokList_startTag_chunk (tagStr : String) (c0 : Char) (tagTail : List Char)
    (htag : tagStr.data = c0 :: tagTail)
    (h0 : c0 ≠ '?') (h0b : c0 ≠ '/') (h0c : c0 ≠ '>')
    (htail : ∀ c ∈ tagTail, c ≠ '>')
    (hnc : ∀ c ∈ tagStr.data, ¬ isXmlSpace c = true)
    (hlast : ¬ tagStr.data.getLast? = some '/')
    (attrs : List (String × String)) (hsafe : SafeAttrsChars attrs) (rest : List Char) :
    tokList ('<' :: (tagStr.data ++ (attrsChars attrs ++ '>' :: rest)))
      = .start ⟨tagStr, attrs⟩ :: tokList rest := by
  have hsh : '<' :: (tagStr.data ++ (attrsChars attrs ++ '>' :: rest))
      = '<' :: c0 :: ((tagTail ++ attrsChars attrs) ++ '>' :: rest) := by
    rw [htag]
    simp [List.append_assoc]
  rw [hsh]
  rw [tokList_tag c0 (tagTail ++ attrsChars attrs) rest h0 h0b h0c (by
    intro cch hcch
    rcases List.mem_append.mp hcch with hm | hm
    · exact htail cch hm
    · exact attrsChars_no_gt attrs hsafe cch hm)]
  have hsh2 : c0 :: (tagTail ++ attrsChars attrs) = tagStr.data ++ attrsChars attrs := by
    rw [htag]
    rfl
  rw [hsh2, parseTagContent_start tagStr.data attrs hnc
    (name_attrs_getLast_ne tagStr.data attrs hlast) hsafe]

/-- The full event stream of a serialized Types value: the declaration, the
line break, the root Start event carrying the root attribute pairs, the
children's Empty events and the closing End event. -/
theorem tokenize_writeXml (x : Types) (b : Bool)
    (hsafe : SafeAttrsChars (typesRootAttrs x)) :
    tokenize (x.writeXml b)
      = .decl :: .text (String.mk ['\r', '\n'])
          :: .start ⟨if b then "w:Types" else "Types", typesRootAttrs x⟩
          :: (typesChildEvents x.children b
            ++ [.endTag (if b then "w:Types" else "Types")]) := by
  rw [show tokenize (x.writeXml b) = tokList (x.writeXml b).data from rfl, typesWriteXml_data]
  rw [tokList_decl (("xml version=\"1.0\" encoding=\"UTF-8\"?" : String).data) _ (by decide)]
  rw [tokList_crlf]
  cases b with
  | false =>
    rw [show ((if false then "w:Types" else "Types") : String) = "Types" from rfl]
    rw [List.append_assoc]
    rw [tokList_startTag_chunk "Types" 'T' ['y', 'p', 'e', 's'] rfl
      (by decide) (by decide) (by decide) (by decide) (by decide) (by decide)
      (typesRootAttrs x) hsafe
      (typesChildrenChars false x.children
        ++ '<' :: '/' :: (("Types" : String).data ++ '>' :: []))]
    rw [tokList_typesChildren false x.children
      ('<' :: '/' :: (("Types" : String).data ++ '>' :: []))]
    rw [tokList_endTag ("Types" : String).data [] (by decide)]
    rfl
  | true =>
    rw [show ((if true then "w:Types" else "Types") : String) = "w:Types" from rfl]
    rw [List.append_assoc]
    rw [tokList_startTag_chunk "w:Types" 'w' [':', 'T', 'y', 'p', 'e', 's'] rfl
      (by decide) (by decide) (by decide) (by decide) (by decide) (by decide)
      (typesRootAttrs x) hsafe
      (typesChildrenChars true x.children
        ++ '<' :: '/' :: (("w:Types" : String).data ++ '>' :: []))]
    rw [tokList_typesChildren true x.children
      ('<' :: '/' :: (("w:Types" : String).data ++ '>' :: []))]
    rw [tokList_endTag ("w:Types" : String).data [] (by decide)]
    rfl

/-! ## Round trip (C7): the deserializer side -/

/-- Stripping a prefix off itself followed by anything leaves the rest. -/
theorem stripPrefixChars_append : ∀ (p s : List Char), stripPrefixChars p (p ++ s) = some s
  | [], _ => rfl
  | c :: ps, s => by
    show (if c = c then stripPrefixChars ps (ps ++ s) else none) = some s
    rw [if_pos rfl, stripPrefixChars_append ps s]

/-- A prefixed xmlns key never equals the bare xmlns key. -/
theorem xmlnsPrefixed_ne_xmlns (k : String) : ¬ ("xmlns:" ++ k = "xmlns") := by
  intro h
  have hd := congrArg String.data h
  rw [String.data_append,
    show ("xmlns:" : String).data = ['x', 'm', 'l', 'n', 's', ':'] from rfl,
    show ("xmlns" : String).data = ['x', 'm', 'l', 'n', 's'] from rfl] at hd
  have hl := congrArg List.length hd
  simp only [List.length_append, List.length_cons, List.length_nil] at hl
  omega

/-- A prefixed xmlns key never equals the mc:Ignorable key. -/
theorem xmlnsPrefixed_ne_mc (k : String) : ¬ ("xmlns:" ++ k = "mc:Ignorable") := by
  intro h
  have hd := congrArg String.data h
  rw [String.data_append,
    show ("xmlns:" : String).data = 'x' :: ['m', 'l', 'n', 's', ':'] from rfl,
    show ("mc:Ignorable" : String).data
      = 'm' :: ['c', ':', 'I', 'g', 'n', 'o', 'r', 'a', 'b', 'l', 'e'] from rfl,
    List.cons_append] at hd
  exact absurd (List.cons.inj hd).1 (by decide)

/-- The attribute step on the exact xmlns key with a raw-safe value. -/
theorem typesAttrStep_xmlns (st : XmlnsTriple) (v : String) (hv : rawSafe v = true) :
    typesAttrStep st ("xmlns", v) = .ok ⟨some v, st.xmlnsMap, st.mcIgnorable⟩ := by
  unfold typesAttrStep
  dsimp only
  rw [if_pos rfl, unescapeStr_rawSafe v hv]

/-- The attribute step on the exact mc:Ignorable key with a raw-safe
value. -/
theorem typesAttrStep_mc (st : XmlnsTriple) (u : String) (hu : rawSafe u = true) :
    typesAttrStep st ("mc:Ignorable", u) = .ok ⟨st.xmlns, st.xmlnsMap, some u⟩ := by
  unfold typesAttrStep
  dsimp only
  rw [if_neg (by decide), if_pos rfl, unescapeStr_rawSafe u hu]

/-- The attribute step on one prefixed xmlns key appends the fresh entry to
the map. -/
theorem typesAttrStep_prefixed (st : XmlnsTriple) (k v : String)
    (hv : rawSafe v = true) (hfresh : ∀ p ∈ st.xmlnsMap, ¬ p.1 = k) :
    typesAttrStep st ("xmlns:" ++ k, v)
      = .ok ⟨st.xmlns, st.xmlnsMap ++ [(k, v)], st.mcIgnorable⟩ := by
  unfold typesAttrStep
  dsimp only
  rw [if_neg (xmlnsPrefixed_ne_xmlns k), if_neg (xmlnsPrefixed_ne_mc k)]
  rw [show ("xmlns:" ++ k).data = ("xmlns:" : String).data ++ k.data from
    String.data_append _ _]
  rw [stripPrefixChars_append]
  dsimp only
  rw [unescapeStr_rawSafe v hv]
  dsimp only
  have hnone : ¬ st.xmlnsMap.any (fun p => p.1 = String.mk k.data) = true := by
    intro hcon
    simp only [List.any_eq_true, decide_eq_true_eq] at hcon
    obtain ⟨p, hp, hpe⟩ := hcon
    exact hfresh p hp hpe
  unfold mapInsert
  rw [if_neg hnone]

/-- The attribute fold over the serialized xmlns_map entries replays the map
into the state in order. -/
theorem typesAttrStep_fold_map : ∀ (l : List (String × String)) (st : XmlnsTriple),
    (∀ kv ∈ l, rawSafe kv.2 = true) →
    (∀ kv ∈ l, ∀ p ∈ st.xmlnsMap, ¬ p.1 = kv.1) →
    (l.map Prod.fst).Nodup →
    (l.map (fun kv => ("xmlns:" ++ kv.1, kv.2))).foldlM typesAttrStep st
      = .ok ⟨st.xmlns, st.xmlnsMap ++ l, st.mcIgnorable⟩ := by
  intro l
  induction l with
  | nil =>
    intro st _ _ _
    rw [List.map_nil, List.foldlM_nil, List.append_nil]
    rfl
  | cons kv t ih =>
    intro st hraw hfresh hnd
    rw [List.map_cons, List.foldlM_cons]
    rw [show ("xmlns:" ++ kv.1, kv.2) = ("xmlns:" ++ kv.1, kv.2) from rfl]
    rw [typesAttrStep_prefixed st kv.1 kv.2 (hraw kv (List.mem_cons_self kv t))
      (fun p hp => hfresh kv (List.mem_cons_self kv t) p hp)]
    show (t.map (fun kv => ("xmlns:" ++ kv.1, kv.2))).foldlM typesAttrStep
        ⟨st.xmlns, st.xmlnsMap ++ [(kv.1, kv.2)], st.mcIgnorable⟩
      = .ok ⟨st.xmlns, st.xmlnsMap ++ kv :: t, st.mcIgnorable⟩
    rw [List.map_cons, List.nodup_cons] at hnd
    rw [ih ⟨st.xmlns, st.xmlnsMap ++ [(kv.1, kv.2)], st.mcIgnorable⟩
      (fun y hy => hraw y (List.mem_cons_of_mem kv hy))
      (by
        intro y hy p hp
        rcases List.mem_append.mp hp with hin | hin
        · exact hfresh y (List.mem_cons_of_mem kv hy) p hin
        · simp only [List.mem_singleton] at hin
          subst hin
          intro hcon
          apply hnd.1
          rw [show ((kv.1, kv.2) : String × String).1 = kv.1 from rfl] at hcon
          rw [hcon]
          exact List.mem_map_of_mem Prod.fst hy)
      hnd.2]
    rw [List.append_assoc]
    rfl

/-- The whole attribute fold of Types::deserialize_inner over the
serialized root attributes of a safe value recovers the xmlns triple. -/
theorem typesRootAttrs_fold (x : Types) (h : TypesSafe x) :
    (typesRootAttrs x).foldlM typesAttrStep ⟨none, [], none⟩
      = .ok ⟨x.xmlns, x.xmlnsMap, x.mcIgnorable⟩ := by
  obtain ⟨h1, h2, h3, h4, h5⟩ := h
  have hmapraw : ∀ kv ∈ x.xmlnsMap, rawSafe kv.2 = true := fun kv hkv => (h3 kv hkv).2
  cases hx : x.xmlns with
  | none =>
    cases hm : x.mcIgnorable with
    | none =>
      rw [show typesRootAttrs x
        = x.xmlnsMap.map (fun kv => ("xmlns:" ++ kv.1, kv.2)) from by
        simp [typesRootAttrs, hx, hm]]
      rw [typesAttrStep_fold_map x.xmlnsMap ⟨none, [], none⟩ hmapraw
        (by intro kv _ p hp; simp at hp) h4]
      rfl
    | some u =>
      rw [show typesRootAttrs x
        = x.xmlnsMap.map (fun kv => ("xmlns:" ++ kv.1, kv.2)) ++ [("mc:Ignorable", u)] from by
        simp [typesRootAttrs, hx, hm]]
      rw [List.foldlM_append]
      rw [typesAttrStep_fold_map x.xmlnsMap ⟨none, [], none⟩ hmapraw
        (by intro kv _ p hp; simp at hp) h4]
      show [("mc:Ignorable", u)].foldlM typesAttrStep ⟨none, [] ++ x.xmlnsMap, none⟩
        = .ok ⟨none, x.xmlnsMap, some u⟩
      rw [List.foldlM_cons, typesAttrStep_mc ⟨none, [] ++ x.xmlnsMap, none⟩ u (h2 u hm)]
      rfl
  | some v =>
    cases hm : x.mcIgnorable with
    | none =>
      rw [show typesRootAttrs x
        = ("xmlns", v) :: x.xmlnsMap.map (fun kv => ("xmlns:" ++ kv.1, kv.2)) from by
        simp [typesRootAttrs, hx, hm]]
      rw [List.foldlM_cons, typesAttrStep_xmlns ⟨none, [], none⟩ v (h1 v hx)]
      show (x.xmlnsMap.map (fun kv => ("xmlns:" ++ kv.1, kv.2))).foldlM typesAttrStep
          ⟨some v, [], none⟩
        = .ok ⟨some v, x.xmlnsMap, none⟩
      rw [typesAttrStep_fold_map x.xmlnsMap ⟨some v, [], none⟩ hmapraw
        (by intro kv _ p hp; simp at hp) h4]
      rfl
    | some u =>
      rw [show typesRootAttrs x
        = ("xmlns", v) :: (x.xmlnsMap.map (fun kv => ("xmlns:" ++ kv.1, kv.2))
            ++ [("mc:Ignorable", u)]) from by
        simp [typesRootAttrs, hx, hm]]
      rw [List.foldlM_cons, typesAttrStep_xmlns ⟨none, [], none⟩ v (h1 v hx)]
      show (x.xmlnsMap.map (fun kv => ("xmlns:" ++ kv.1, kv.2))
          ++ [("mc:Ignorable", u)]).foldlM typesAttrStep ⟨some v, [], none⟩
        = .ok ⟨some v, x.xmlnsMap, some u⟩
      rw [List.foldlM_append]
      rw [typesAttrStep_fold_map x.xmlnsMap ⟨some v, [], none⟩ hmapraw
        (by intro kv _ p hp; simp at hp) h4]
      show [("mc:Ignorable", u)].foldlM typesAttrStep ⟨some v, [] ++ x.xmlnsMap, none⟩
        = .ok ⟨some v, x.xmlnsMap, some u⟩
      rw [List.foldlM_cons, typesAttrStep_mc ⟨some v, [] ++ x.xmlnsMap, none⟩ u (h2 u hm)]
      rfl

/-- Default::deserialize_inner's attribute loop read back from the
serialized attributes recovers the record. -/
theorem opcDefault_fromEvent (tag : String) (d : OpcDefault) :
    OpcDefault.fromEvent ⟨tag, opcDefaultAttrs d⟩ = .ok d := by
  have e1 : opcDefaultAttrStep (none, none) ("Extension", escape d.extension)
      = .ok (some d.extension, none) := by
    unfold opcDefaultAttrStep
    dsimp only
    rw [if_pos rfl, unescapeStr_escape]
  have e2 : opcDefaultAttrStep (some d.extension, none) ("ContentType", escape d.contentType)
      = .ok (some d.extension, some d.contentType) := by
    unfold opcDefaultAttrStep
    dsimp only
    rw [if_neg (by decide), if_pos rfl, unescapeStr_escape]
  have hfold : (opcDefaultAttrs d).foldlM opcDefaultAttrStep (none, none)
      = .ok (some d.extension, some d.contentType) := by
    rw [show opcDefaultAttrs d = ("Extension", escape d.extension)
      :: [("ContentType", escape d.contentType)] from rfl]
    rw [List.foldlM_cons, e1]
    show [("ContentType", escape d.contentType)].foldlM opcDefaultAttrStep
        (some d.extension, none) = _
    rw [List.foldlM_cons, e2]
    rfl
  unfold OpcDefault.fromEvent
  rw [show (⟨tag, opcDefaultAttrs d⟩ : StartTag).attrs = opcDefaultAttrs d from rfl, hfold]

/-- Override::deserialize_inner's attribute loop read back from the
serialized attributes recovers the record. -/
theorem opcOverride_fromEvent (tag : String) (o : OpcOverride) :
    OpcOverride.fromEvent ⟨tag, opcOverrideAttrs o⟩ = .ok o := by
  have e1 : opcOverrideAttrStep (none, none) ("ContentType", escape o.contentType)
      = .ok (some o.contentType, none) := by
    unfold opcOverrideAttrStep
    dsimp only
    rw [if_pos rfl, unescapeStr_escape]
  have e2 : opcOverrideAttrStep (some o.contentType, none) ("PartName", escape o.partName)
      = .ok (some o.contentType, some o.partName) := by
    unfold opcOverrideAttrStep
    dsimp only
    rw [if_neg (by decide), if_pos rfl, unescapeStr_escape]
  have hfold : (opcOverrideAttrs o).foldlM opcOverrideAttrStep (none, none)
      = .ok (some o.contentType, some o.partName) := by
    rw [show opcOverrideAttrs o = ("ContentType", escape o.contentType)
      :: [("PartName", escape o.partName)] from rfl]
    rw [List.foldlM_cons, e1]
    show [("PartName", escape o.partName)].foldlM opcOverrideAttrStep
        (some o.contentType, none) = _
    rw [List.foldlM_cons, e2]
    rfl
  unfold OpcOverride.fromEvent
  rw [show (⟨tag, opcOverrideAttrs o⟩ : StartTag).attrs = opcOverrideAttrs o from rfl, hfold]

/-- The child loop of Types::deserialize_inner replays the serialized
children (none of them the None placeholder) and stops at the end tag with
no events left. -/
theorem typesChildLoop_events (b : Bool) :
    ∀ (cs : List TypesChildChoice) (acc : List TypesChildChoice),
    (∀ c ∈ cs, c ≠ TypesChildChoice.noneChild) →
    typesChildLoop (typesChildEvents cs b ++ [.endTag (if b then "w:Types" else "Types")]) acc
      = .ok (acc ++ cs, []) := by
  intro cs
  induction cs with
  | nil =>
    intro acc _
    rw [show typesChildEvents [] b ++ [XmlEvent.endTag (if b then "w:Types" else "Types")]
      = [XmlEvent.endTag (if b then "w:Types" else "Types")] from rfl]
    unfold typesChildLoop
    rw [if_pos (by cases b with | false => exact Or.inr rfl | true => exact Or.inl rfl)]
    rw [List.append_nil]
  | cons c t ih =>
    intro acc hnc
    cases c with
    | noneChild => exact absurd rfl (hnc _ (List.mem_cons_self _ _))
    | defaultChild d =>
      rw [show typesChildEvents (.defaultChild d :: t) b
        = .empty ⟨if b then "w:Default" else "Default", opcDefaultAttrs d⟩
          :: typesChildEvents t b from rfl]
      rw [List.cons_append]
      unfold typesChildLoop
      have hdis : typesDispatchChild
          ⟨if b then "w:Default" else "Default", opcDefaultAttrs d⟩ acc
          = .ok (acc ++ [.defaultChild d]) := by
        unfold typesDispatchChild
        rw [if_pos (by cases b with | false => exact Or.inr rfl | true => exact Or.inl rfl)]
        rw [opcDefault_fromEvent]
      rw [hdis]
      show typesChildLoop (typesChildEvents t b
          ++ [XmlEvent.endTag (if b then "w:Types" else "Types")]) (acc ++ [.defaultChild d])
        = .ok (acc ++ .defaultChild d :: t, [])
      have hrec := ih (acc ++ [TypesChildChoice.defaultChild d])
        (fun y hy => hnc y (List.mem_cons_of_mem (TypesChildChoice.defaultChild d) hy))
      rw [hrec, List.append_assoc]
      rfl
    | overrideChild o =>
      rw [show typesChildEvents (.overrideChild o :: t) b
        = .empty ⟨if b then "w:Override" else "Override", opcOverrideAttrs o⟩
          :: typesChildEvents t b from rfl]
      rw [List.cons_append]
      unfold typesChildLoop
      have hdis : typesDispatchChild
          ⟨if b then "w:Override" else "Override", opcOverrideAttrs o⟩ acc
          = .ok (acc ++ [.overrideChild o]) := by
        unfold typesDispatchChild
        rw [if_neg (by
          cases b with
          | false =>
            show ¬(("Override" : String) = "w:Default" ∨ ("Override" : String) = "Default")
            decide
          | true =>
            show ¬(("w:Override" : String) = "w:Default"
              ∨ ("w:Override" : String) = "Default")
            decide)]
        rw [if_pos (by cases b with | false => exact Or.inr rfl | true => exact Or.inl rfl)]
        rw [opcOverride_fromEvent]
      rw [hdis]
      show typesChildLoop (typesChildEvents t b
          ++ [XmlEvent.endTag (if b then "w:Types" else "Types")]) (acc ++ [.overrideChild o])
        = .ok (acc ++ .overrideChild o :: t, [])
      have hrec := ih (acc ++ [TypesChildChoice.overrideChild o])
        (fun y hy => hnc y (List.mem_cons_of_mem (TypesChildChoice.overrideChild o) hy))
      rw [hrec, List.append_assoc]
      rfl

/-- C7 counterexample: the claim quantifies over every validly-constructed
instance, but a Types value whose children list holds the defaulted None
variant of the child union (a value Rust constructs with
TypesChildChoice::default()) serializes to markup with no trace of that
child, so deserializing the output yields a value with an empty children
list, not the original. -/
theorem types_round_trip_counterexample_c7 :
    typesRoundTrip typesWithNoneChild true ≠ .ok (typesWithNoneChild, []) := by decide

/-- C7 (amended): for every Types value that is safe — no None placeholder
child, raw-safe xmlns, xmlns_map and mc:Ignorable values (the serializer
writes these without escaping), key-safe pairwise-distinct xmlns_map
prefixes — deserialize_inner on the tokenized output of write_xml returns
exactly the original value with no events left, for either tag form. -/
theorem types_round_trip_c7 (x : Types) (b : Bool) (h : TypesSafe x) :
    typesRoundTrip x b = .ok (x, []) := by
  unfold typesRoundTrip
  rw [tokenize_writeXml x b (typesRootAttrs_safe x h)]
  unfold Types.deserializeInner
  have hexp : expectEventStart
      (XmlEvent.decl :: .text (String.mk ['\r', '\n'])
        :: .start ⟨if b then "w:Types" else "Types", typesRootAttrs x⟩
        :: (typesChildEvents x.children b ++ [.endTag (if b then "w:Types" else "Types")]))
      none "w:Types" "Types"
      = .ok ((⟨if b then "w:Types" else "Types", typesRootAttrs x⟩, false),
          typesChildEvents x.children b
            ++ [.endTag (if b then "w:Types" else "Types")]) := by
    cases b
    · rfl
    · rfl
  rw [hexp]
  dsimp only
  rw [typesRootAttrs_fold x h]
  dsimp only
  rw [if_neg (by decide)]
  rw [typesChildLoop_events b x.children [] h.2.2.2.2]
  rfl

/-- C7 witness: the demonstration value with canonical xmlns, one xmlns_map
entry, mc:Ignorable and one Default and one Override child is safe and
round-trips exactly. -/
theorem types_round_trip_c7_witness :
    TypesSafe typesDemo ∧ typesRoundTrip typesDemo true = .ok (typesDemo, []) :=
  ⟨by decide, types_round_trip_c7 typesDemo true (by decide)⟩

end Ooxmlsdk
